import Mathlib

/-!
Shallow embedding of the route-optimization core in
`src/backend/route_optimizer.py` (class `RouteOptimizer` and the matrix
construction of `GoogleMapsService`), together with theorems settling the
frozen claims about it.

Modelling conventions:
* Python floats are modelled as exact rationals (`ℚ`).
* Randomness (`random.*`, `np.random.*`) is modelled by an oracle: a pair of
  streams of naturals and rationals indexed by a draw counter.  Each random
  primitive reads the stream at the current position and advances the
  counter.  Reseeding (`random.seed(s)` / `np.random.seed(s)`) switches to
  the stream family member for `s` at position 0.  Draws from a continuous
  distribution with full support (e.g. `np.random.normal`) are modelled as
  the raw rational from the stream; draws from `[0,1)` (`random.random`,
  `np.random.rand`) are clamped into `[0,1]`.
* `math.exp` (used only inside the SA acceptance test) and `np.pi` (used
  only to clip the QAOA parameters) are transcendental; they are supplied
  as parameters (`Env.expFn`, `Env.piQ`) and all theorems quantify over
  them.  Likewise the Haversine fallback distance is a parameter `hav`.
* Python `set`s of small naturals iterate in ascending order; the unvisited
  pools are therefore modelled as ascending lists, with removal by value.
* Exceptions are modelled with `Except`/`Option`.
-/

/-- Oracle for one seeded random stream: the `k`-th natural and rational
drawn after the last reseeding. -/
structure Rng where
  natAt : Nat → Nat
  ratAt : Nat → ℚ

/-- State of the (global) random generator: the active stream and the
number of draws already consumed from it. -/
structure RngS where
  rng : Rng
  pos : Nat

/-- Draw one natural number from the stream. -/
def drawNat (s : RngS) : Nat × RngS :=
  (s.rng.natAt s.pos, ⟨s.rng, s.pos + 1⟩)

/-- Draw one raw rational from the stream (models a full-support real
draw such as `np.random.normal`). -/
def drawRat (s : RngS) : ℚ × RngS :=
  (s.rng.ratAt s.pos, ⟨s.rng, s.pos + 1⟩)

/-- Clamp a rational into the unit interval. -/
def clamp01 (q : ℚ) : ℚ := max 0 (min q 1)

/-- Draw one rational from `[0,1]` (models `random.random()` and
`np.random.rand` entries). -/
def drawUnit (s : RngS) : ℚ × RngS :=
  (clamp01 (s.rng.ratAt s.pos), ⟨s.rng, s.pos + 1⟩)

/-- Model of `random.randint(lo, hi)` (inclusive bounds). -/
def randint (lo hi : Nat) (s : RngS) : Nat × RngS :=
  let (d, s') := drawNat s
  (lo + d % (hi + 1 - lo), s')

/-- Advance the stream by `k` positions without using the values (models
random draws whose results are discarded, e.g. shuffling a slice copy). -/
def skipDraws (k : Nat) (s : RngS) : RngS := ⟨s.rng, s.pos + k⟩

/-- Model of `np.random.uniform(lo, hi)`: an oracle value scaled into
`[lo, hi]`. -/
def uniformQ (lo hi : ℚ) (s : RngS) : ℚ × RngS :=
  let (u, s') := drawUnit s
  (lo + (hi - lo) * u, s')

/-- Environment of transcendental functions and the seeded stream family:
`family s` is the state of the global RNG right after `random.seed(s)` /
`np.random.seed(s)`. -/
structure Env where
  family : Nat → Rng
  expFn : ℚ → ℚ
  piQ : ℚ

/-- Switch to the freshly seeded stream for `seed` (models
`random.seed(seed)` / `np.random.seed(seed)`). -/
def reseed (env : Env) (seed : Nat) : RngS := ⟨env.family seed, 0⟩

/-- A location record (`{id, lat, lng}`); service times and time windows
are carried by the request but never read by the optimizer core. -/
structure Location where
  id : String
  lat : ℚ
  lng : ℚ
deriving DecidableEq

/-- The problem instance seen by the optimizers: `self.locations`,
`self.distance_matrix` and `self.time_matrix`. -/
structure Inst where
  locs : List Location
  D : Nat → Nat → ℚ
  T : Nat → Nat → ℚ

/-- `n = len(self.locations)`. -/
def Inst.n (inst : Inst) : Nat := inst.locs.length

/-- The id of location `i` (`self.locations[i]["id"]`). -/
def Inst.idAt (inst : Inst) (i : Nat) : String :=
  (inst.locs.getD i ⟨"", 0, 0⟩).id

/-- The ids of all locations in order. -/
def Inst.ids (inst : Inst) : List String := inst.locs.map (·.id)

/-- One entry of an `iterations_log`; algorithm-specific fields are
optional. -/
structure LogEntry where
  iter : Nat
  objective : ℚ
  temperature : Option ℚ := none
  best : Option ℚ := none
  populationDiversity : Option ℚ := none
  gammaAvg : Option ℚ := none
  betaAvg : Option ℚ := none
  explorationPhase : Option String := none
deriving DecidableEq

/-- The `RouteResult` dataclass.  `algorithm_params` is modelled as an
association list of strings. -/
structure RouteResult where
  route_order : List String
  polyline : String
  distance_km : ℚ
  time_min : ℚ
  objective_value : ℚ
  iterations_log : List LogEntry
  seed : Nat
  algorithm_params : List (String × String)
deriving DecidableEq

/-- Sum of `M[r[i]][r[i+1]]` over consecutive pairs of `r`
(`_calculate_route_distance` and the analogous time sums). -/
def pairSum (M : Nat → Nat → ℚ) : List Nat → ℚ
  | a :: b :: rest => M a b + pairSum M (b :: rest)
  | _ => 0

/-- `_calculate_route_distance(route)`. -/
def calculate_route_distance (inst : Inst) (r : List Nat) : ℚ :=
  pairSum inst.D r

/-- Total time of a route, as summed inline by every optimizer. -/
def route_time (inst : Inst) (r : List Nat) : ℚ :=
  pairSum inst.T r

/-- First element of a nonempty list attaining the minimum of `key`,
scanning left to right and keeping the incumbent on ties (Python
`min(pool, key=key)` over an ascending pool). -/
def argminBy (key : Nat → ℚ) : List Nat → Nat
  | [] => 0
  | x :: xs => xs.foldl (fun b y => if key y < key b then y else b) x

/-- First element of a nonempty list attaining the maximum of `key`
(Python `max(pool, key=key)`). -/
def argmaxBy (key : Nat → ℚ) : List Nat → Nat
  | [] => 0
  | x :: xs => xs.foldl (fun b y => if key b < key y then y else b) x

/-- Greedy selection walk: repeatedly pick an element of the pool (as a
function of the current position) and move it to the output, until the
pool is exhausted.  `fuel` bounds the recursion and is always instantiated
with the pool length. -/
def selectWalk (pick : Nat → List Nat → Nat) : Nat → Nat → List Nat → List Nat
  | 0, _, _ => []
  | fuel + 1, cur, pool =>
    match pool with
    | [] => []
    | _ :: _ =>
      let x := pick cur pool
      x :: selectWalk pick fuel x (pool.erase x)

/-- Nearest-neighbour construction from index 0 over the key matrix
(`_construct_time_focused_route` / `_construct_distance_focused_route`
and the classical greedy construction). -/
def nearest_route (key : Nat → Nat → ℚ) (n : Nat) : List Nat :=
  0 :: selectWalk (fun cur pool => argminBy (key cur) pool) (n - 1) 0 (List.range' 1 (n - 1))

/-- `new_route[i:j+1] = reversed(route[i:j+1])`. -/
def reverseSegment (r : List Nat) (i j : Nat) : List Nat :=
  r.take i ++ ((r.drop i).take (j + 1 - i)).reverse ++ r.drop (j + 1)

/-- Python simultaneous assignment
`route[i], route[j] = route[j], route[i]`. -/
def swapMove (r : List Nat) (i j : Nat) : List Nat :=
  (r.set i (r.getD j 0)).set j (r.getD i 0)

/-- Python `city = route.pop(i); route.insert(j, city)`. -/
def insertMove (r : List Nat) (i j : Nat) : List Nat :=
  (r.eraseIdx i).insertIdx j (r.getD i 0)

/-- State of the classical 2-opt improvement loop: current route, its
distance (`best_distance`), the improvement flag, the outer-pass counter
(`iteration`) and the log. -/
structure TwoOptSt where
  route : List Nat
  best : ℚ
  improved : Bool
  iters : Nat
  log : List LogEntry
deriving DecidableEq

/-- The scan order of the 2-opt double loop:
`for i in range(1, n-1): for j in range(i+1, n)`. -/
def twoOptPairs (n : Nat) : List (Nat × Nat) :=
  (List.range' 1 (n - 2)).flatMap fun i =>
    (List.range' (i + 1) (n - 1 - i)).map fun j => (i, j)

/-- One candidate reversal of the classical 2-opt scan, with
first-improvement acceptance and the `iteration % 50 == 0` log cadence. -/
def twoOptVisit (inst : Inst) (st : TwoOptSt) (ij : Nat × Nat) : TwoOptSt :=
  let newRoute := reverseSegment st.route ij.1 ij.2
  let newDistance := calculate_route_distance inst newRoute
  if newDistance < st.best then
    { st with
      route := newRoute
      best := newDistance
      improved := true
      log := if st.iters % 50 = 0 then
          st.log ++ [{ iter := st.iters, objective := newDistance }]
        else st.log }
  else st

/-- One outer pass: reset `improved`, advance `iteration`, scan all
pairs. -/
def twoOptPass (inst : Inst) (n : Nat) (st : TwoOptSt) : TwoOptSt :=
  (twoOptPairs n).foldl (twoOptVisit inst)
    { st with improved := false, iters := st.iters + 1 }

/-- `while improved and iteration < 1000`: the fuel is instantiated with
1000. -/
def twoOptLoop (inst : Inst) (n : Nat) : Nat → TwoOptSt → TwoOptSt
  | 0, st => st
  | fuel + 1, st =>
    if st.improved then twoOptLoop inst n fuel (twoOptPass inst n st) else st

/-- The classical optimizer's search: nearest-neighbour construction on
the distance matrix followed by the capped 2-opt loop. -/
def classicalFinal (inst : Inst) : TwoOptSt :=
  let n := inst.n
  let route := nearest_route inst.D n
  let d := calculate_route_distance inst route
  twoOptLoop inst n 1000
    { route := route, best := d, improved := true, iters := 0
      log := [{ iter := 0, objective := d }] }

/-- `_optimize_classical`.  It draws no randomness: the oracle state is
returned untouched, and the recorded seed is the literal 0. -/
def optimize_classical (inst : Inst) (s : RngS) : RouteResult × RngS :=
  let n := inst.n
  if n ≤ 2 then
    ({ route_order := inst.ids, polyline := "", distance_km := 0
       time_min := 0, objective_value := 0, iterations_log := [], seed := 0
       algorithm_params := [("method", "greedy_2opt")] }, s)
  else
    let fin := classicalFinal inst
    ({ route_order := fin.route.map inst.idAt, polyline := ""
       distance_km := fin.best
       time_min := route_time inst fin.route
       objective_value := fin.best
       iterations_log := fin.log
       seed := 0
       algorithm_params := [("method", "greedy_2opt"),
         ("iterations", toString fin.iters), ("strategy", "shortest_distance")] }, s)

/-- The SA hybrid objective `0.6*distance + 0.4*time`. -/
def hybrid_objective (inst : Inst) (r : List Nat) : ℚ :=
  0.6 * calculate_route_distance inst r + 0.4 * route_time inst r

/-- `random.sample(range(1, n), 2)`: two distinct values in `[1, n-1]`,
driven by two oracle draws. -/
def sampleTwo (n : Nat) (s : RngS) : Nat × Nat × RngS :=
  let (d1, s) := drawNat s
  let a := 1 + d1 % (n - 1)
  let (d2, s) := drawNat s
  let b0 := 1 + d2 % (n - 2)
  let b := if b0 < a then b0 else b0 + 1
  (a, b, s)

/-- The three SA move types. -/
inductive SaMove where
  | swap
  | insert
  | reverse
deriving DecidableEq

/-- SA neighbour generation.  Only executed when `n > 3`; otherwise the
candidate is the unchanged copy of the current route.
`random.choice(['swap', 'insert', 'reverse'])` is modelled by one draw
modulo 3. -/
def saNeighbor (n : Nat) (route : List Nat) (s : RngS) : List Nat × RngS :=
  if 3 < n then
    let d := (drawNat s).1
    let s1 := (drawNat s).2
    if d % 3 = 0 then
      let t := sampleTwo n s1
      (swapMove route t.1 t.2.1, t.2.2)
    else if d % 3 = 1 then
      let ri := randint 1 (n - 1) s1
      let rj := randint 1 (n - 1) ri.2
      (insertMove route ri.1 rj.1, rj.2)
    else
      let t := sampleTwo n s1
      (reverseSegment route (min t.1 t.2.1) (max t.1 t.2.1), t.2.2)
  else (route, s)

/-- State of the SA loop. -/
structure SaSt where
  route : List Nat
  curObj : ℚ
  bestRoute : List Nat
  bestObj : ℚ
  temp : ℚ
  log : List LogEntry
  rng : RngS

/-- One SA iteration: neighbour, Metropolis acceptance (the
`random.random() < exp(-delta/temp)` test is only evaluated when
`delta ≥ 0`, matching the Python short-circuit), cooling, and the
`iteration % 100 == 0` log cadence. -/
def saStep (env : Env) (inst : Inst) (n iteration : Nat) (st : SaSt) : SaSt :=
  let nb := saNeighbor n st.route st.rng
  let newRoute := nb.1
  let newObj := hybrid_objective inst newRoute
  let delta := newObj - st.curObj
  let accept : Bool :=
    if delta < 0 then true
    else decide ((drawUnit nb.2).1 < env.expFn (-delta / st.temp))
  let s2 : RngS := if delta < 0 then nb.2 else (drawUnit nb.2).2
  let st1 :=
    if accept then
      if newObj < st.bestObj then
        { st with route := newRoute, curObj := newObj
                  bestRoute := newRoute, bestObj := newObj }
      else { st with route := newRoute, curObj := newObj }
    else st
  let temp := st1.temp * 0.995
  let log :=
    if iteration % 100 = 0 then
      st1.log ++ [{ iter := iteration, objective := st1.curObj
                    best := some st1.bestObj, temperature := some temp }]
    else st1.log
  { st1 with temp := temp, log := log, rng := s2 }

/-- `for iteration in range(1, max_iterations + 1)` with the
`temp < final_temp` break; returns the final state and the last executed
iteration number. -/
def saLoop (env : Env) (inst : Inst) (n : Nat) : Nat → Nat → SaSt → SaSt × Nat
  | 0, iteration, st => (st, iteration - 1)
  | fuel + 1, iteration, st =>
    let st' := saStep env inst n iteration st
    if st'.temp < 1 then (st', iteration)
    else saLoop env inst n fuel (iteration + 1) st'

/-- The initial SA state: fresh reseeded stream, time-nearest-neighbour
tour, initial temperature 2000 and the iteration-0 log entry. -/
def saInit (env : Env) (inst : Inst) (sd : Nat) : SaSt :=
  let route := nearest_route inst.T inst.n
  let curObj := hybrid_objective inst route
  { route := route, curObj := curObj, bestRoute := route, bestObj := curObj
    temp := 2000
    log := [{ iter := 0, objective := curObj, temperature := some 2000 }]
    rng := reseed env sd }

/-- Result assembly of `_optimize_simulated_annealing` from the final
loop state and last executed iteration number. -/
def saFinish (inst : Inst) (sd : Nat) (fl : SaSt × Nat) : RouteResult × RngS :=
  ({ route_order := fl.1.bestRoute.map inst.idAt, polyline := ""
     distance_km := calculate_route_distance inst fl.1.bestRoute
     time_min := route_time inst fl.1.bestRoute
     objective_value := fl.1.bestObj
     iterations_log := fl.1.log
     seed := sd
     algorithm_params := [("method", "simulated_annealing"),
       ("initial_temp", "2000.0"), ("final_temp", "1.0"),
       ("cooling_rate", "0.995"), ("iterations", toString fl.2),
       ("strategy", "time_distance_hybrid"),
       ("objective_weights", "0.6*distance + 0.4*time")] }, fl.1.rng)

/-- `_optimize_simulated_annealing`.  Draws its own seed from the ambient
stream, reseeds, constructs the initial tour by nearest neighbour over
the time matrix, and runs the annealing loop. -/
def optimize_simulated_annealing (env : Env) (inst : Inst) (s : RngS) :
    RouteResult × RngS :=
  let n := inst.n
  if n ≤ 2 then
    let sds := randint 1 10000 s
    ({ route_order := inst.ids, polyline := "", distance_km := 0
       time_min := 0, objective_value := 0, iterations_log := []
       seed := sds.1
       algorithm_params := [("method", "simulated_annealing")] }, sds.2)
  else
    let sd := (randint 1 10000 s).1
    saFinish inst sd (saLoop env inst n 5000 1 (saInit env inst sd))

/-- The QIEA objective: `0.5*distance + 0.3*time + 0.2*diversity_bonus`,
where the bonus adds `0.05*distance/n` once for every index
`i ∈ range(1, len(route)-1)` with `i % 2 == 0`. -/
def qiea_objective (inst : Inst) (r : List Nat) : ℚ :=
  let distance := calculate_route_distance inst r
  let time := route_time inst r
  let diversityBonus :=
    ((List.range' 1 (r.length - 2)).filter (fun i => i % 2 = 0)).foldl
      (fun acc _ => acc + 0.05 * distance / (inst.n : ℚ)) 0
  0.5 * distance + 0.3 * time + 0.2 * diversityBonus

/-- A quantum individual: an `n × n` matrix of rationals, stored as a list
of rows. -/
abbrev QMat := List (List ℚ)

/-- Matrix read `q[i, j]` (in-range in all reachable uses). -/
def qGet (q : QMat) (i j : Nat) : ℚ := (q.getD i []).getD j 0

/-- Matrix write `q[i, j] = v`. -/
def qSet (q : QMat) (i j : Nat) (v : ℚ) : QMat :=
  q.set i ((q.getD i []).set j v)

/-- One row of `np.random.rand(n, n)`: `n` unit-interval draws. -/
def qInitRow : Nat → RngS → List ℚ × RngS
  | 0, s => ([], s)
  | k + 1, s =>
    let (u, s) := drawUnit s
    let (row, s') := qInitRow k s
    (u :: row, s')

/-- `np.random.rand(n, n)`: `n` rows of `n` draws, row-major. -/
def qInitMat (n : Nat) : Nat → RngS → QMat × RngS
  | 0, s => ([], s)
  | k + 1, s =>
    let (row, s) := qInitRow n s
    let (rows, s') := qInitMat n k s
    (row :: rows, s')

/-- The initial quantum population: `population_size` fresh `n × n`
matrices. -/
def qInitPop (n : Nat) : Nat → RngS → List QMat × RngS
  | 0, s => ([], s)
  | k + 1, s =>
    let (q, s) := qInitMat n n s
    let (pop, s') := qInitPop n k s
    (q :: pop, s')

/-- Consecutive pairs `(route[i], route[i+1])` of a route. -/
def consecPairs : List Nat → List (Nat × Nat)
  | a :: b :: rest => (a, b) :: consecPairs (b :: rest)
  | _ => []

/-- `_quantum_rotation_update`: for every consecutive transition of the
target route, `q[a, b] = min(1.0, q[a, b] + 0.1)`. -/
def quantum_rotation_update (q : QMat) (target : List Nat) : QMat :=
  (consecPairs target).foldl
    (fun q ab => qSet q ab.1 ab.2 (min 1 (qGet q ab.1 ab.2 + 0.1))) q

/-- `_quantum_mutation`: every off-diagonal entry gets independent noise
(modelled as a raw oracle rational) and is clipped into `[0,1]`.  The
diagonal is skipped and consumes no draw, as in the source. -/
def quantum_mutation (n : Nat) (q : QMat) (s : RngS) : QMat × RngS :=
  (List.range n).foldl
    (fun acc i =>
      (List.range n).foldl
        (fun acc j =>
          if i = j then acc
          else
            let (d, s) := drawRat acc.2
            (qSet acc.1 i j (clamp01 (qGet acc.1 i j + d)), s))
        acc)
    (q, s)

/-- Mean absolute entrywise difference of two `n × n` matrices
(`np.mean(np.abs(a - b))`). -/
def matMeanAbsDiff (n : Nat) (a b : QMat) : ℚ :=
  (((List.range n).map fun i =>
      ((List.range n).map fun j => |qGet a i j - qGet b i j|).sum).sum) /
    ((n : ℚ) * n)

/-- The list of pairwise diversities over all unordered pairs of the
population, in the source's scan order. -/
def pairDiversities : List QMat → List ℚ
  | [] => []
  | a :: rest => rest.map (fun b => matMeanAbsDiff a.length a b) ++ pairDiversities rest

/-- `_calculate_population_diversity`. -/
def calculate_population_diversity (pop : List QMat) : ℚ :=
  if pop.length < 2 then 0
  else (pairDiversities pop).sum / ((pairDiversities pop).length : ℚ)

/-- Maximal-distance pair search of `_construct_farthest_insertion_route`:
row-major scan over `i < j`, strict improvement over the running maximum,
starting from `(0, 1)` with maximum 0. -/
def maxDistPair (DM : Nat → Nat → ℚ) (n : Nat) : Nat × Nat :=
  ((List.range n).foldl
    (fun acc i =>
      (List.range' (i + 1) (n - (i + 1))).foldl
        (fun (acc : (Nat × Nat) × ℚ) j =>
          if acc.2 < DM i j then ((i, j), DM i j) else acc)
        acc)
    ((0, 1), 0)).1

/-- Minimum of `f` over a nonempty list (Python `min(f(y) for y in ys)`). -/
def minOver (f : Nat → ℚ) : List Nat → ℚ
  | [] => 0
  | y :: ys => ys.foldl (fun m z => min m (f z)) (f y)

/-- Insertion cost of point `p` at position `pos` of the current route.
The scan runs over `pos in range(1, len(route)+1)`, so the `pos == 0`
branch of the source is unreachable and is not modelled; `pos ==
len(route)` uses the source's wrap-around formula. -/
def insertCost (DM : Nat → Nat → ℚ) (route : List Nat) (p pos : Nat) : ℚ :=
  if pos = route.length then
    DM (route.getLastD 0) p + DM p (route.headD 0) -
      DM (route.getLastD 0) (route.headD 0)
  else
    DM (route.getD (pos - 1) 0) p + DM p (route.getD pos 0) -
      DM (route.getD (pos - 1) 0) (route.getD pos 0)

/-- Best insertion position: first strict minimum of the insertion cost
over `pos in range(1, len(route)+1)`, defaulting to 1. -/
def bestInsertPos (DM : Nat → Nat → ℚ) (route : List Nat) (p : Nat) : Nat :=
  ((List.range' 1 route.length).foldl
    (fun (acc : Nat × Option ℚ) pos =>
      match acc.2 with
      | none => (pos, some (insertCost DM route p pos))
      | some c =>
        if insertCost DM route p pos < c then (pos, some (insertCost DM route p pos))
        else acc)
    (1, none)).1

/-- The insertion loop of `_construct_farthest_insertion_route`: pick the
unvisited point farthest from the route, insert it at the cheapest
position. -/
def farthestInsertLoop (DM : Nat → Nat → ℚ) : Nat → List Nat → List Nat → List Nat
  | 0, _, route => route
  | fuel + 1, pool, route =>
    match pool with
    | [] => route
    | _ :: _ =>
      let p := argmaxBy (fun x => minOver (fun y => DM x y) route) pool
      farthestInsertLoop DM fuel (pool.erase p)
        (route.insertIdx (bestInsertPos DM route p) p)

/-- `_construct_farthest_insertion_route`: start from the pair maximizing
the distance matrix and insert the remaining points.  Note the initial
pair need not contain index 0. -/
def construct_farthest_insertion_route (DM : Nat → Nat → ℚ) (n : Nat) : List Nat :=
  if n ≤ 2 then List.range n
  else
    let ij := maxDistPair DM n
    let pool := (((List.range n).erase ij.1).erase ij.2)
    farthestInsertLoop DM pool.length pool [ij.1, ij.2]

/-- `_construct_route_with_method`, dispatched by `k % 4` over
`['random', 'time_based', 'distance_based', 'farthest_insertion']`.
`random.shuffle(route[1:])` shuffles a slice copy in the source, so the
`random` method returns the identity tour while consuming shuffle
draws. -/
def construct_route_with_method (inst : Inst) (m n : Nat) (s : RngS) :
    List Nat × RngS :=
  if m = 0 then (List.range n, skipDraws (n - 1) s)
  else if m = 1 then (nearest_route inst.T n, s)
  else if m = 2 then (nearest_route inst.D n, s)
  else (construct_farthest_insertion_route inst.D n, s)

/-- The stochastic-walk core of `_quantum_to_classical_route`: at the
current city, the row restricted to the unvisited pool is normalized by
its sum and one city is sampled.  The source has no guard: a zero row sum
is a division by zero whose NaN weights make `np.random.choice` raise, so
that case returns `none`.  A successful weighted sample is any member of
the pool; it is modelled as the pool entry at an oracle-chosen index. -/
def qWalkAux (q : QMat) : Nat → Nat → List Nat → RngS → Option (List Nat) × RngS
  | 0, _, pool, s => (if pool.isEmpty then some [] else none, s)
  | fuel + 1, cur, pool, s =>
    match pool with
    | [] => (some [], s)
    | _ :: _ =>
      let wsum := (pool.map fun j => qGet q cur j).sum
      if 0 < wsum then
        let d := (drawNat s).1
        let s1 := (drawNat s).2
        let x := pool.getD (d % pool.length) 0
        let res := qWalkAux q fuel x (pool.erase x) s1
        match res.1 with
        | some rest => (some (x :: rest), res.2)
        | none => (none, res.2)
      else (none, s)

/-- `_quantum_to_classical_route`: walk from index 0 over the unvisited
pool `[1, n)` with `n = len(quantum_state)`. -/
def quantum_to_classical_route (q : QMat) (s : RngS) : Option (List Nat) × RngS :=
  let n := q.length
  let pool := List.range' 1 (n - 1)
  let res := qWalkAux q pool.length 0 pool s
  match res.1 with
  | some rest => (some (0 :: rest), res.2)
  | none => (none, res.2)

/-- Best-so-far update: Python `if objective < best_objective`, with the
initial best of `float('inf')` modelled as `none`. -/
def updateBest (best : Option (List Nat × ℚ)) (cand : List Nat × ℚ) :
    Option (List Nat × ℚ) :=
  match best with
  | none => some cand
  | some b => if cand.2 < b.2 then some cand else some b

/-- Route materialization for individual `k` in generation `gen`:
construction heuristics in generation 0, quantum walk afterwards. -/
def qieaMaterialize (inst : Inst) (gen k : Nat) (q : QMat) (s : RngS) :
    Option (List Nat) × RngS :=
  if gen = 0 then
    let cr := construct_route_with_method inst (k % 4) inst.n s
    (some cr.1, cr.2)
  else quantum_to_classical_route q s

/-- The per-generation evaluation loop: materialize and evaluate every
individual, collecting `classical_solutions` and updating the best.  A
failed walk aborts the whole optimizer (`none`). -/
def qieaEvalLoop (inst : Inst) (gen : Nat) :
    List QMat → Nat → Option (List Nat × ℚ) → List (List Nat × ℚ) → RngS →
    Option (List (List Nat × ℚ) × Option (List Nat × ℚ)) × RngS
  | [], _, best, sols, s => (some (sols, best), s)
  | q :: rest, k, best, sols, s =>
    let mat := qieaMaterialize inst gen k q s
    match mat.1 with
    | none => (none, mat.2)
    | some r =>
      let obj := qiea_objective inst r
      qieaEvalLoop inst gen rest (k + 1) (updateBest best (r, obj))
        (sols ++ [(r, obj)]) mat.2

/-- `elites[::3]`. -/
def everyThird : List (List Nat × ℚ) → List (List Nat × ℚ)
  | [] => []
  | [a] => [a]
  | [a, _] => [a]
  | a :: _ :: _ :: rest => a :: everyThird rest

/-- The per-generation quantum-state update loop: each individual `k`
receives rotation updates from an elite subset selected by `k % 3`, then
mutates with probability `mutation_rate = 0.15`. -/
def qieaUpdateLoop (elites : List (List Nat × ℚ)) :
    List QMat → Nat → RngS → List QMat × RngS
  | [], _, s => ([], s)
  | q :: rest, k, s =>
    let chosen :=
      if k % 3 = 0 then elites.take 3
      else if k % 3 = 1 then (elites.drop 5).take 3
      else everyThird elites
    let q1 := chosen.foldl (fun q rc => quantum_rotation_update q rc.1) q
    let u := (drawUnit s).1
    let s1 := (drawUnit s).2
    let q2 := if u < 0.15 then (quantum_mutation q1.length q1 s1).1 else q1
    let s2 := if u < 0.15 then (quantum_mutation q1.length q1 s1).2 else s1
    let res := qieaUpdateLoop elites rest (k + 1) s2
    (q2 :: res.1, res.2)

/-- State carried across QIEA generations. -/
structure QieaSt where
  population : List QMat
  best : Option (List Nat × ℚ)
  log : List LogEntry

/-- One QIEA generation: evaluation, elite selection (stable sort by
objective, first 15), state update, and the `generation % 25 == 0` log
cadence (logged after the update, over the updated population). -/
def qieaGenStep (inst : Inst) (gen : Nat) (st : QieaSt) (s : RngS) :
    Option QieaSt × RngS :=
  let ev := qieaEvalLoop inst gen st.population 0 st.best [] s
  match ev.1 with
  | none => (none, ev.2)
  | some sb =>
    let elites := (sb.1.mergeSort fun a b => decide (a.2 ≤ b.2)).take 15
    let upd := qieaUpdateLoop elites st.population 0 ev.2
    let log' :=
      if gen % 25 = 0 then
        st.log ++ [{ iter := gen, objective := (sb.2.map (·.2)).getD 0
                     populationDiversity := some (calculate_population_diversity upd.1) }]
      else st.log
    (some { population := upd.1, best := sb.2, log := log' }, upd.2)

/-- The generation loop, fuelled with `max_generations = 250`. -/
def qieaGenLoop (inst : Inst) : Nat → Nat → QieaSt → RngS → Option QieaSt × RngS
  | 0, _, st, s => (some st, s)
  | fuel + 1, gen, st, s =>
    let stp := qieaGenStep inst gen st s
    match stp.1 with
    | none => (none, stp.2)
    | some st' => qieaGenLoop inst fuel (gen + 1) st' stp.2

/-- `_optimize_qiea`.  A failed quantum walk propagates as an exception
(`Except.error`), caught by the engine dispatch. -/
def optimize_qiea (env : Env) (inst : Inst) (s : RngS) :
    Except String RouteResult × RngS :=
  let n := inst.n
  if n ≤ 2 then
    let sd := (randint 1 10000 s).1
    (.ok { route_order := inst.ids, polyline := "", distance_km := 0
           time_min := 0, objective_value := 0, iterations_log := [], seed := sd
           algorithm_params := [("method", "qiea")] }, (randint 1 10000 s).2)
  else
    let sd := (randint 1 10000 s).1
    let s1 := reseed env sd
    let ip := qInitPop n 60 s1
    let gl := qieaGenLoop inst 250 0 ⟨ip.1, none, []⟩ ip.2
    match gl.1 with
    | none => (.error "quantum walk failed: probabilities contain NaN", gl.2)
    | some stf =>
      match stf.best with
      | none => (.error "no route found", gl.2)
      | some ro =>
        (.ok { route_order := ro.1.map inst.idAt, polyline := ""
               distance_km := calculate_route_distance inst ro.1
               time_min := route_time inst ro.1
               objective_value := ro.2
               iterations_log := stf.log
               seed := sd
               algorithm_params := [("method", "qiea"),
                 ("population_size", "60"), ("generations", "250"),
                 ("mutation_rate", "0.15"), ("strategy", "exploration_focused"),
                 ("objective_weights", "0.5*distance + 0.3*time + 0.2*diversity")] }, gl.2)

/-- Count of direction changes: positions `i in range(1, len(r)-1)` where
`abs(r[i] - r[i-1]) != abs(r[i+1] - r[i])` on the integer index labels. -/
def directionChanges : List Nat → Nat
  | p :: c :: nx :: rest =>
    (if ((c : Int) - p).natAbs ≠ ((nx : Int) - c).natAbs then 1 else 0) +
      directionChanges (c :: nx :: rest)
  | _ => 0

/-- The QAOA objective: `0.3*distance + 0.7*time` plus (for `n > 3`) the
"path complexity" bonus `-0.1 * base * (direction_changes / n)`. -/
def qaoa_objective (inst : Inst) (r : List Nat) : ℚ :=
  let distance := calculate_route_distance inst r
  let time := route_time inst r
  let baseObjective := 0.3 * distance + 0.7 * time
  let bonus :=
    if 3 < inst.n then
      (-0.1) * baseObjective * ((directionChanges r : ℚ) / (inst.n : ℚ))
    else 0
  baseObjective + bonus

/-- `_simulate_qaoa_circuit_time_focused`: the time-biased probability
matrix.  Entries start at `1/n`, off-diagonals are multiplied by
`1/(1 + T[i, j])`, and each row is normalized by its sum.  The `gamma`,
`beta` and `initial_route` arguments are accepted and ignored, exactly as
in the source. -/
def simulate_qaoa_circuit_time_focused (inst : Inst) (_gamma _beta : List ℚ)
    (n : Nat) (_initialRoute : List Nat) : Nat → Nat → ℚ :=
  fun i j =>
    let w : Nat → Nat → ℚ := fun a b =>
      if a = b then 1 / (n : ℚ) else 1 / (n : ℚ) * (1 / (1 + inst.T a b))
    w i j / ((List.range n).map (w i)).sum

/-- The sampling walk of `_sample_route_from_probabilities`.  When the
restricted row has positive sum the next city is a weighted sample over
the pool; when it is zero the source falls back to `random.choice`.
Both draws are modelled as the pool entry at an oracle-chosen index, so
the zero-sum guard (present in the source, unlike the QIEA walk) does
not change the embedded behaviour and the walk is total. -/
def qaoaWalkAux (P : Nat → Nat → ℚ) : Nat → Nat → List Nat → RngS → List Nat × RngS
  | 0, _, _, s => ([], s)
  | fuel + 1, _cur, pool, s =>
    match pool with
    | [] => ([], s)
    | _ :: _ =>
      let (d, s) := drawNat s
      let x := pool.getD (d % pool.length) 0
      let (rest, s') := qaoaWalkAux P fuel x (pool.erase x) s
      (x :: rest, s')

/-- `_sample_route_from_probabilities`. -/
def sample_route_from_probabilities (P : Nat → Nat → ℚ) (n : Nat) (s : RngS) :
    List Nat × RngS :=
  let pool := List.range' 1 (n - 1)
  let (rest, s') := qaoaWalkAux P pool.length 0 pool s
  (0 :: rest, s')

/-- First improving reversal of one bounded 2-opt pass, scanning the same
pair order as the classical loop and breaking out of both loops on the
first improvement. -/
def findFirstImprove (inst : Inst) (route : List Nat) (best : ℚ) :
    List (Nat × Nat) → Option (List Nat × ℚ)
  | [] => none
  | ij :: rest =>
    let nr := reverseSegment route ij.1 ij.2
    let nd := calculate_route_distance inst nr
    if nd < best then some (nr, nd) else findFirstImprove inst route best rest

/-- The pass loop of `_local_search_2opt_limited`. -/
def limited2OptGo (inst : Inst) : Nat → List Nat → ℚ → List Nat
  | 0, r, _ => r
  | fuel + 1, r, best =>
    match findFirstImprove inst r best (twoOptPairs r.length) with
    | none => r
    | some (nr, nd) => limited2OptGo inst fuel nr nd

/-- `_local_search_2opt_limited(route, max_iterations)`. -/
def local_search_2opt_limited (inst : Inst) (route : List Nat) (maxIterations : Nat) :
    List Nat :=
  if route.length ≤ 3 then route
  else limited2OptGo inst maxIterations route (calculate_route_distance inst route)

/-- One QAOA route sample, dispatched by the phase of `step` within
`optimization_steps`: early = sample from the probability matrix, middle
= 50/50 sample or time-focused nearest neighbour, late = sample then
bounded 2-opt. -/
def qaoaSampleOne (inst : Inst) (P : Nat → Nat → ℚ) (n step steps : Nat)
    (s : RngS) : List Nat × RngS :=
  if step < steps / 3 then sample_route_from_probabilities P n s
  else if step < 2 * steps / 3 then
    let (u, s) := drawUnit s
    if u < 0.5 then sample_route_from_probabilities P n s
    else (nearest_route inst.T n, s)
  else
    let (r, s') := sample_route_from_probabilities P n s
    (local_search_2opt_limited inst r 10, s')

/-- The per-step sampling loop (`min(num_samples // 12, 100)` samples),
updating the best route. -/
def qaoaSampleLoop (inst : Inst) (P : Nat → Nat → ℚ) (n step steps : Nat) :
    Nat → Option (List Nat × ℚ) → RngS → Option (List Nat × ℚ) × RngS
  | 0, best, s => (best, s)
  | k + 1, best, s =>
    let (r, s') := qaoaSampleOne inst P n step steps s
    let obj := qaoa_objective inst r
    qaoaSampleLoop inst P n step steps k (updateBest best (r, obj)) s'

/-- One gradient-free parameter update: per layer, add oracle noise
(modelling `np.random.normal(0, σ·exploration)` with positive σ) and clip
`gamma` into `[0, π]` and `beta` into `[0, π/2]`. -/
def qaoaParamUpdate (env : Env) (pDepth : Nat) (gamma beta : List ℚ) (s : RngS) :
    List ℚ × List ℚ × RngS :=
  (List.range pDepth).foldl
    (fun (acc : List ℚ × List ℚ × RngS) i =>
      let (gd, s) := drawRat acc.2.2
      let (bd, s) := drawRat s
      let g := max 0 (min (acc.1.getD i 0 + gd) env.piQ)
      let b := max 0 (min (acc.2.1.getD i 0 + bd) (env.piQ / 2))
      (acc.1.set i g, (acc.2.1.set i b, s)))
    (gamma, beta, s)

/-- The phase label used in the QAOA log. -/
def qaoaPhase (step steps : Nat) : String :=
  if step < steps / 3 then "early"
  else if step < 2 * steps / 3 then "middle" else "late"

/-- State across QAOA optimization steps. -/
structure QaoaSt where
  gamma : List ℚ
  beta : List ℚ
  best : Option (List Nat × ℚ)
  log : List LogEntry

/-- One QAOA optimization step: rebuild the (parameter-independent)
probability matrix, draw the per-step samples, update the parameters
(except on the last step) and log every 12 steps. -/
def qaoaStep (env : Env) (inst : Inst) (n steps pDepth : Nat) (initialRoute : List Nat)
    (step : Nat) (st : QaoaSt) (s : RngS) : QaoaSt × RngS :=
  let P := simulate_qaoa_circuit_time_focused inst st.gamma st.beta n initialRoute
  let (best, s1) := qaoaSampleLoop inst P n step steps (min (1200 / 12) 100) st.best s
  let (gamma, beta, s2) :=
    if step < steps - 1 then qaoaParamUpdate env pDepth st.gamma st.beta s1
    else (st.gamma, st.beta, s1)
  let log :=
    if step % 12 = 0 then
      st.log ++ [{ iter := step, objective := (best.map (·.2)).getD 0
                   gammaAvg := some (gamma.sum / (pDepth : ℚ))
                   betaAvg := some (beta.sum / (pDepth : ℚ))
                   explorationPhase := some (qaoaPhase step steps) }]
    else st.log
  ({ gamma := gamma, beta := beta, best := best, log := log }, s2)

/-- The QAOA step loop, fuelled with `optimization_steps = 120`. -/
def qaoaStepLoop (env : Env) (inst : Inst) (n steps pDepth : Nat)
    (initialRoute : List Nat) : Nat → Nat → QaoaSt → RngS → QaoaSt × RngS
  | 0, _, st, s => (st, s)
  | fuel + 1, step, st, s =>
    let (st', s') := qaoaStep env inst n steps pDepth initialRoute step st s
    qaoaStepLoop env inst n steps pDepth initialRoute fuel (step + 1) st' s'

/-- Initialize a parameter vector of `k` draws scaled into `[lo, hi]`
(`np.random.uniform(lo, hi, k)`). -/
def uniformVec (lo hi : ℚ) : Nat → RngS → List ℚ × RngS
  | 0, s => ([], s)
  | k + 1, s =>
    let (v, s) := uniformQ lo hi s
    let (vs, s') := uniformVec lo hi k s
    (v :: vs, s')

/-- Result assembly of `_optimize_qaoa` from the final step-loop state:
the best route is converted to stop ids with distance, time, and the
best objective. -/
def qaoaFinish (inst : Inst) (sd : Nat) (sl : QaoaSt × RngS) :
    Except String RouteResult × RngS :=
  match sl.1.best with
  | none => (.error "no route found", sl.2)
  | some ro =>
    (.ok { route_order := ro.1.map inst.idAt, polyline := ""
           distance_km := calculate_route_distance inst ro.1
           time_min := route_time inst ro.1
           objective_value := ro.2
           iterations_log := sl.1.log
           seed := sd
           algorithm_params := [("method", "qaoa"), ("p_depth", "4"),
             ("optimization_steps", "120"), ("num_samples", "1200"),
             ("strategy", "time_focused_exploration"),
             ("objective_weights", "0.3*distance + 0.7*time + path_complexity_bonus")] }, sl.2)

/-- `_optimize_qaoa`. -/
def optimize_qaoa (env : Env) (inst : Inst) (s : RngS) :
    Except String RouteResult × RngS :=
  let n := inst.n
  if n ≤ 2 then
    let sds := randint 1 10000 s
    (.ok { route_order := inst.ids, polyline := "", distance_km := 0
           time_min := 0, objective_value := 0, iterations_log := []
           seed := sds.1
           algorithm_params := [("method", "qaoa")] }, sds.2)
  else
    let sd := (randint 1 10000 s).1
    let s1 := reseed env sd
    let gv := uniformVec 0.2 0.8 4 s1
    let bv := uniformVec 0.1 0.4 4 gv.2
    let initialRoute := nearest_route inst.T n
    qaoaFinish inst sd
      (qaoaStepLoop env inst n 120 4 initialRoute 120 0
        { gamma := gv.1, beta := bv.1, best := none, log := [] } bv.2)

/-- The matrices and source label returned by
`GoogleMapsService.get_route_matrix`. -/
structure MatrixData where
  distanceMatrix : List (List ℚ)
  timeMatrix : List (List ℚ)
  source : String
deriving DecidableEq

/-- The external Google Maps provider, as seen by the core.  `batch` is
the outcome of the Distance Matrix batch call (`none` models both an
exception and a non-OK status; per-element failures inside a successful
batch are `none` elements).  `pair` is the outcome of a single
Directions call for a coordinate pair (distance, time, polyline).
`fullPoly` is the outcome of the full-route polyline call keyed by the
ordered stop ids.  The per-pair in-memory cache of the source is
semantically transparent here because the provider is a pure function of
the coordinate pair. -/
structure Provider where
  batch : Option (List (List (Option (ℚ × ℚ))))
  pair : ℚ × ℚ → ℚ × ℚ → Option (ℚ × ℚ × String)
  fullPoly : List String → Option String

/-- `get_route_matrix`.  `hav` is the Haversine fallback distance in km;
a failed pair contributes `hav` for distance and `hav * 1.2` for time.
On the individual-call path the diagonal is zeroed explicitly and the
source label is always the literal `"Google Maps Directions API"`. -/
def get_route_matrix (hav : ℚ × ℚ → ℚ × ℚ → ℚ) (prov : Provider)
    (locs : List Location) : MatrixData :=
  let n := locs.length
  let coord := fun i => ((locs.getD i ⟨"", 0, 0⟩).lat, (locs.getD i ⟨"", 0, 0⟩).lng)
  match prov.batch with
  | some elems =>
    { distanceMatrix := (List.range n).map fun i => (List.range n).map fun j =>
        match (elems.getD i []).getD j none with
        | some dt => dt.1
        | none => hav (coord i) (coord j)
      timeMatrix := (List.range n).map fun i => (List.range n).map fun j =>
        match (elems.getD i []).getD j none with
        | some dt => dt.2
        | none => hav (coord i) (coord j) * 1.2
      source := "Google Maps Distance Matrix API" }
  | none =>
    { distanceMatrix := (List.range n).map fun i => (List.range n).map fun j =>
        if i = j then 0 else
        match prov.pair (coord i) (coord j) with
        | some dtp => dtp.1
        | none => hav (coord i) (coord j)
      timeMatrix := (List.range n).map fun i => (List.range n).map fun j =>
        if i = j then 0 else
        match prov.pair (coord i) (coord j) with
        | some dtp => dtp.2.1
        | none => hav (coord i) (coord j) * 1.2
      source := "Google Maps Directions API" }

/-- One per-algorithm entry of `algorithmResults`: either a successful
`RouteResult` or the error record produced by the `except` branch of
`optimize_routes` (whose route is empty, objective `float('inf')` and
seed `random_seed or 0`). -/
inductive AlgEntry where
  | ok (r : RouteResult)
  | err (msg : String) (seed : Nat)
deriving DecidableEq

/-- Attach the full-route polyline (`polyline or ""`). -/
def attachPoly (prov : Provider) (r : RouteResult) : RouteResult :=
  { r with polyline := (prov.fullPoly r.route_order).getD "" }

/-- Run one named algorithm; unknown names are skipped (`continue`). -/
def runOne (env : Env) (inst : Inst) (prov : Provider) (randomSeed : Option Nat)
    (alg : String) (s : RngS) : Option AlgEntry × RngS :=
  if alg = "classical" then
    let (r, s') := optimize_classical inst s
    (some (.ok (attachPoly prov r)), s')
  else if alg = "simulated" then
    let (r, s') := optimize_simulated_annealing env inst s
    (some (.ok (attachPoly prov r)), s')
  else if alg = "qiea" then
    match optimize_qiea env inst s with
    | (.ok r, s') => (some (.ok (attachPoly prov r)), s')
    | (.error m, s') => (some (.err m (randomSeed.getD 0)), s')
  else if alg = "qaoa" then
    match optimize_qaoa env inst s with
    | (.ok r, s') => (some (.ok (attachPoly prov r)), s')
    | (.error m, s') => (some (.err m (randomSeed.getD 0)), s')
  else (none, s)

/-- Sequential dispatch over the requested algorithms. -/
def runAll (env : Env) (inst : Inst) (prov : Provider) (randomSeed : Option Nat) :
    List String → RngS → List (String × AlgEntry) × RngS
  | [], s => ([], s)
  | alg :: rest, s =>
    match runOne env inst prov randomSeed alg s with
    | (some e, s') =>
      let (es, s'') := runAll env inst prov randomSeed rest s'
      ((alg, e) :: es, s'')
    | (none, s') => runAll env inst prov randomSeed rest s'

/-- The aggregate response of `optimize_routes`. -/
structure EngineResponse where
  algorithmResults : List (String × AlgEntry)
  distanceMatrixSource : String
  timestamp : String
  apiVersion : String
  debugWarnings : List String
  debugErrors : List String
  matrixSize : Nat
  totalStops : Nat
deriving DecidableEq

/-- The default algorithm list. -/
def defaultAlgorithms : List String := ["classical", "simulated", "qiea", "qaoa"]

/-- `optimize_routes`.  Validation raises on fewer than 2 stops; a depot
is prepended as the synthetic location `{id: "depot"}`; with a request
seed the global RNG is reseeded, otherwise the ambient stream `amb` is
used; the matrices come from `get_route_matrix`; the debug `warnings`
and `errors` lists are the hard-coded empty lists of the source, and the
timestamp is taken as a parameter (excluded from the determinism
claims). -/
def optimize_routes (env : Env) (hav : ℚ × ℚ → ℚ × ℚ → ℚ) (prov : Provider)
    (stops : List Location) (depot : Option (ℚ × ℚ))
    (algorithmsOpt : Option (List String)) (randomSeed : Option Nat)
    (amb : Rng) (timestamp : String) : Except String EngineResponse :=
  let algorithms := algorithmsOpt.getD defaultAlgorithms
  if stops.length < 2 then .error "At least 2 stops required"
  else
    let locations :=
      match depot with
      | some d => ⟨"depot", d.1, d.2⟩ :: stops
      | none => stops
    let md := get_route_matrix hav prov locations
    let inst : Inst :=
      { locs := locations
        D := fun i j => (md.distanceMatrix.getD i []).getD j 0
        T := fun i j => (md.timeMatrix.getD i []).getD j 0 }
    let s0 : RngS :=
      match randomSeed with
      | some sd => reseed env sd
      | none => ⟨amb, 0⟩
    let (results, _) := runAll env inst prov randomSeed algorithms s0
    .ok { algorithmResults := results
          distanceMatrixSource := md.source
          timestamp := timestamp
          apiVersion := "v1"
          debugWarnings := []
          debugErrors := []
          matrixSize := locations.length
          totalStops := stops.length }

/-! ### List helper lemmas -/

/-- A binary-choice fold stays within the initial element and the list. -/
theorem foldlChoice_mem (g : Nat → Nat → Nat) (hg : ∀ b y, g b y = b ∨ g b y = y) :
    ∀ (xs : List Nat) (x : Nat), xs.foldl g x ∈ x :: xs := by
  intro xs
  induction xs with
  | nil => intro x; simp
  | cons y ys ih =>
    intro x
    simp only [List.foldl_cons]
    rcases hg x y with h0 | h0 <;> rw [h0]
    · have h := ih x
      simp only [List.mem_cons] at h ⊢
      tauto
    · have h := ih y
      simp only [List.mem_cons] at h ⊢
      tauto

/-- `argminBy` of a nonempty pool is a member of the pool. -/
theorem argminBy_mem (key : Nat → ℚ) (l : List Nat) (h : l ≠ []) :
    argminBy key l ∈ l := by
  match l with
  | x :: xs =>
    have := foldlChoice_mem (fun b y => if key y < key b then y else b)
      (fun b y => by by_cases hc : key y < key b <;> simp [hc]) xs x
    simpa [argminBy] using this

/-- `argmaxBy` of a nonempty pool is a member of the pool. -/
theorem argmaxBy_mem (key : Nat → ℚ) (l : List Nat) (h : l ≠ []) :
    argmaxBy key l ∈ l := by
  match l with
  | x :: xs =>
    have := foldlChoice_mem (fun b y => if key b < key y then y else b)
      (fun b y => by by_cases hc : key b < key y <;> simp [hc]) xs x
    simpa [argmaxBy] using this

/-- A selection walk with a pool-membership pick is a permutation of the
pool, given enough fuel. -/
theorem selectWalk_perm (pick : Nat → List Nat → Nat)
    (hp : ∀ cur pool, pool ≠ [] → pick cur pool ∈ pool) :
    ∀ (fuel : Nat) (pool : List Nat) (cur : Nat), pool.length ≤ fuel →
      (selectWalk pick fuel cur pool).Perm pool := by
  intro fuel
  induction fuel with
  | zero =>
    intro pool cur h
    have : pool = [] := List.length_eq_zero.mp (Nat.le_zero.mp h)
    subst this; simp [selectWalk]
  | succ f ih =>
    intro pool cur h
    match pool with
    | [] => simp [selectWalk]
    | a :: rest =>
      have hx : pick cur (a :: rest) ∈ a :: rest := hp _ _ (by simp)
      have hlen : ((a :: rest).erase (pick cur (a :: rest))).length ≤ f := by
        rw [List.length_erase_of_mem hx]
        simp only [List.length_cons] at h ⊢
        omega
      simpa [selectWalk] using
        ((ih _ _ hlen).cons _).trans (List.perm_cons_erase hx).symm

/-- `range n` splits as `0` followed by `range' 1 (n-1)` for positive `n`. -/
theorem range_eq_cons (n : Nat) (h : 1 ≤ n) :
    List.range n = 0 :: List.range' 1 (n - 1) := by
  obtain ⟨m, rfl⟩ := Nat.exists_eq_add_of_le h
  rw [Nat.add_comm]
  rw [List.range_eq_range', List.range'_succ]
  simp

/-- The nearest-neighbour construction is a permutation of `range n`. -/
theorem nearest_route_perm (key : Nat → Nat → ℚ) (n : Nat) (h : 1 ≤ n) :
    (nearest_route key n).Perm (List.range n) := by
  rw [range_eq_cons n h, nearest_route]
  refine List.Perm.cons 0 ?_
  refine selectWalk_perm _ ?_ _ _ _ (by simp)
  intro cur pool hp
  exact argminBy_mem _ _ hp

/-- The nearest-neighbour construction starts at index 0. -/
theorem nearest_route_head (key : Nat → Nat → ℚ) (n : Nat) :
    (nearest_route key n).head? = some 0 := rfl

/-- A reversal of the slice `[i, j]` with `i ≤ j + 1` is a permutation. -/
theorem reverseSegment_perm (r : List Nat) (i j : Nat) (hij : i ≤ j + 1) :
    (reverseSegment r i j).Perm r := by
  have hdd : (r.drop i).drop (j + 1 - i) = r.drop (j + 1) := by
    rw [List.drop_drop]
    congr 1
    omega
  have hr : r.take i ++ ((r.drop i).take (j + 1 - i) ++ r.drop (j + 1)) = r := by
    rw [← hdd, List.take_append_drop, List.take_append_drop]
  rw [reverseSegment, List.append_assoc]
  conv_rhs => rw [← hr]
  exact ((List.reverse_perm _).append_right _).append_left _

/-- A reversal starting at `i ≥ 1` keeps the head. -/
theorem reverseSegment_head (r : List Nat) (i j : Nat) (hi : 1 ≤ i) :
    (reverseSegment r i j).head? = r.head? := by
  match r, i with
  | [], i => simp [reverseSegment]
  | a :: t, i + 1 => simp [reverseSegment]

/-- Any list is a permutation of its `i`-th element consed on the
`i`-th erasure. -/
theorem perm_getD_cons_eraseIdx (l : List Nat) (i : Nat) (h : i < l.length) :
    l.Perm (l.getD i 0 :: l.eraseIdx i) := by
  induction l generalizing i with
  | nil => simp at h
  | cons a t ih =>
    match i with
    | 0 => simp
    | k + 1 =>
      have hk : k < t.length := by simpa using h
      exact ((ih k hk).cons a).trans (List.Perm.swap _ _ _)

/-- Setting an index `≥ 1` keeps the head. -/
theorem head?_set (l : List Nat) (i v : Nat) (hi : 1 ≤ i) :
    (l.set i v).head? = l.head? := by
  match l, i with
  | [], _ => simp
  | a :: t, k + 1 => simp

/-- Erasing an index `≥ 1` keeps the head. -/
theorem head?_eraseIdx (l : List Nat) (i : Nat) (hi : 1 ≤ i) :
    (l.eraseIdx i).head? = l.head? := by
  match l, i with
  | [], _ => simp
  | a :: t, k + 1 => simp [List.eraseIdx]

/-- Inserting at an index `≥ 1` keeps the head. -/
theorem head?_insertIdx (l : List Nat) (i v : Nat) (hi : 1 ≤ i) :
    (l.insertIdx i v).head? = l.head? := by
  match l, i with
  | [], k + 1 => simp [List.insertIdx]
  | a :: t, k + 1 => simp [List.insertIdx]

/-- Replacing position `j` after moving its previous value to the front
is a permutation of putting the new value in front. -/
theorem consSet_perm (t : List Nat) (j a : Nat) (h : j < t.length) :
    (t.getD j 0 :: t.set j a).Perm (a :: t) := by
  induction t generalizing j with
  | nil => simp at h
  | cons b t' ih =>
    match j with
    | 0 => simpa using List.Perm.swap a b t'
    | k + 1 =>
      have hk : k < t'.length := by simpa using h
      exact (List.Perm.swap _ _ _).trans
        (((ih k hk).cons b).trans (List.Perm.swap _ _ _))

/-- The Python tuple swap of two valid positions is a permutation. -/
theorem swapMove_perm (r : List Nat) (i j : Nat)
    (hi : i < r.length) (hj : j < r.length) : (swapMove r i j).Perm r := by
  induction r generalizing i j with
  | nil => simp at hi
  | cons c t ih =>
    match i, j with
    | 0, 0 => simp [swapMove]
    | 0, k + 1 =>
      have hk : k < t.length := by simpa using hj
      simpa [swapMove] using consSet_perm t k c hk
    | m + 1, 0 =>
      have hm : m < t.length := by simpa using hi
      simpa [swapMove] using consSet_perm t m c hm
    | m + 1, k + 1 =>
      have hm : m < t.length := by simpa using hi
      have hk : k < t.length := by simpa using hj
      simpa [swapMove] using (ih m k hm hk).cons c

/-- The Python pop/insert move with a valid source position and an
insertion position within the shortened list is a permutation. -/
theorem insertMove_perm (r : List Nat) (i j : Nat)
    (hi : i < r.length) (hj : j ≤ r.length - 1) : (insertMove r i j).Perm r := by
  have hlen : (r.eraseIdx i).length = r.length - 1 := by
    rw [List.length_eraseIdx]
    simp [hi]
  have h1 : ((r.eraseIdx i).insertIdx j (r.getD i 0)).Perm
      (r.getD i 0 :: r.eraseIdx i) :=
    List.perm_insertIdx _ _ (by omega)
  exact h1.trans (perm_getD_cons_eraseIdx r i hi).symm

/-- The swap move keeps the head when both positions are `≥ 1`. -/
theorem swapMove_head (r : List Nat) (i j : Nat) (hi : 1 ≤ i) (hj : 1 ≤ j) :
    (swapMove r i j).head? = r.head? := by
  rw [swapMove, head?_set _ _ _ hj, head?_set _ _ _ hi]

/-- The insert move keeps the head when both positions are `≥ 1`. -/
theorem insertMove_head (r : List Nat) (i j : Nat) (hi : 1 ≤ i) (hj : 1 ≤ j) :
    (insertMove r i j).head? = r.head? := by
  rw [insertMove, head?_insertIdx _ _ _ hj, head?_eraseIdx _ _ hi]

/-- The two indices produced by `sampleTwo` are distinct and lie in
`[1, n-1]` when `n ≥ 4`. -/
theorem sampleTwo_bounds (n : Nat) (s : RngS) (hn : 4 ≤ n) :
    1 ≤ (sampleTwo n s).1 ∧ (sampleTwo n s).1 ≤ n - 1 ∧
      1 ≤ (sampleTwo n s).2.1 ∧ (sampleTwo n s).2.1 ≤ n - 1 ∧
      (sampleTwo n s).1 ≠ (sampleTwo n s).2.1 := by
  unfold sampleTwo drawNat
  have h1 : (s.rng.natAt s.pos) % (n - 1) < n - 1 := Nat.mod_lt _ (by omega)
  have h2 : (s.rng.natAt (s.pos + 1)) % (n - 2) < n - 2 := Nat.mod_lt _ (by omega)
  simp only []
  split <;> omega

/-- Each value of `randint lo hi` lies in `[lo, hi]`. -/
theorem randint_mem (lo hi : Nat) (s : RngS) (h : lo ≤ hi) :
    lo ≤ (randint lo hi s).1 ∧ (randint lo hi s).1 ≤ hi := by
  unfold randint drawNat
  have := Nat.mod_lt (s.rng.natAt s.pos) (y := hi + 1 - lo) (by omega)
  constructor <;> simp only [] <;> omega

/-- The SA neighbour is always a permutation of the current route with
the same head (index 0 is never moved). -/
theorem saNeighbor_perm_head (n : Nat) (route : List Nat) (s : RngS)
    (hlen : route.length = n) :
    (saNeighbor n route s).1.Perm route ∧
      (saNeighbor n route s).1.head? = route.head? := by
  unfold saNeighbor
  by_cases h4 : 3 < n
  · simp only [if_pos h4, drawNat]
    have hb := sampleTwo_bounds n ⟨s.rng, s.pos + 1⟩ (by omega)
    obtain ⟨hi1, hi2, hj1, hj2, hne⟩ := hb
    split
    · exact ⟨swapMove_perm _ _ _ (by omega) (by omega),
        swapMove_head _ _ _ hi1 hj1⟩
    · split
      · have hi := randint_mem 1 (n - 1) ⟨s.rng, s.pos + 1⟩ (by omega)
        have hj := randint_mem 1 (n - 1)
          (randint 1 (n - 1) ⟨s.rng, s.pos + 1⟩).2 (by omega)
        constructor
        · refine insertMove_perm _ _ _ ?_ ?_ <;> omega
        · refine insertMove_head _ _ _ ?_ ?_ <;> omega
      · constructor
        · refine reverseSegment_perm _ _ _ ?_
          omega
        · refine reverseSegment_head _ _ _ ?_
          omega
  · simp only [if_neg h4]
    exact ⟨List.Perm.refl _, trivial⟩

/-- Invariant of the SA loop: current and best routes are permutations
of `range n` starting at index 0. -/
def SaInv (n : Nat) (st : SaSt) : Prop :=
  st.route.Perm (List.range n) ∧ st.route.head? = some 0 ∧
    st.bestRoute.Perm (List.range n) ∧ st.bestRoute.head? = some 0

/-- One SA iteration preserves the loop invariant. -/
theorem saStep_inv (env : Env) (inst : Inst) (n iteration : Nat) (st : SaSt)
    (h : SaInv n st) : SaInv n (saStep env inst n iteration st) := by
  obtain ⟨h1, h2, h3, h4⟩ := h
  have hlen : st.route.length = n := by simpa using h1.length_eq
  have hnb := saNeighbor_perm_head n st.route st.rng hlen
  unfold saStep SaInv
  dsimp only
  split_ifs <;>
    exact ⟨(by first
        | exact hnb.1.trans h1
        | exact h1), by first
        | exact hnb.2.trans h2
        | exact h2, by first
        | exact hnb.1.trans h1
        | exact h3, by first
        | exact hnb.2.trans h2
        | exact h4⟩

/-- The SA loop preserves the invariant. -/
theorem saLoop_inv (env : Env) (inst : Inst) (n : Nat) :
    ∀ (fuel iteration : Nat) (st : SaSt), SaInv n st →
      SaInv n (saLoop env inst n fuel iteration st).1 := by
  intro fuel
  induction fuel with
  | zero => intro iteration st h; exact h
  | succ f ih =>
    intro iteration st h
    have h' := saStep_inv env inst n iteration st h
    unfold saLoop
    dsimp only
    split
    · exact h'
    · exact ih _ _ h'

/-- Reading all positions of a list with a default reproduces the list. -/
theorem map_getD_range {α β : Type} (l : List α) (d : α) (f : α → β) :
    (List.range l.length).map (fun i => f (l.getD i d)) = l.map f := by
  induction l with
  | nil => simp
  | cons a t ih =>
    rw [List.length_cons, List.range_succ_eq_map]
    simp only [List.map_cons, List.map_map, List.getD_cons_zero]
    exact congrArg _ ih

/-- Mapping indices to ids over `range n` gives the id list. -/
theorem map_idAt_range (inst : Inst) :
    (List.range inst.n).map inst.idAt = inst.ids := by
  exact map_getD_range inst.locs ⟨"", 0, 0⟩ (·.id)

/-- A permutation of `range n` maps to a permutation of the ids. -/
theorem route_ids_perm (inst : Inst) (r : List Nat)
    (h : r.Perm (List.range inst.n)) : (r.map inst.idAt).Perm inst.ids := by
  have := h.map inst.idAt
  rwa [map_idAt_range] at this

/-- A route starting at index 0 maps to an id list starting with the id
of location 0, which is the head of the id list. -/
theorem route_ids_head (inst : Inst) (r : List Nat) (hn : 1 ≤ inst.n)
    (h : r.head? = some 0) : (r.map inst.idAt).head? = inst.ids.head? := by
  rw [List.head?_map, h]
  obtain ⟨a, t, hl⟩ : ∃ a t, inst.locs = a :: t := by
    match hl : inst.locs with
    | [] => rw [Inst.n, hl] at hn; simp at hn
    | a :: t => exact ⟨a, t, rfl⟩
  simp [Inst.ids, Inst.idAt, hl]

/-- A fold preserves any predicate preserved by each step on list
members. -/
theorem foldl_preserve {σ α : Type} (P : σ → Prop) (f : σ → α → σ) (l : List α)
    (hf : ∀ st a, a ∈ l → P st → P (f st a)) : ∀ st, P st → P (l.foldl f st) := by
  induction l with
  | nil => intro st h; exact h
  | cons a t ih =>
    intro st h
    exact ih (fun st b hb => hf st b (List.mem_cons_of_mem a hb))
      _ (hf st a (List.mem_cons_self a t) h)

/-- Bounds of the classical 2-opt scan pairs. -/
theorem twoOptPairs_mem (n : Nat) (ij : Nat × Nat) (h : ij ∈ twoOptPairs n) :
    1 ≤ ij.1 ∧ ij.1 < ij.2 ∧ ij.2 ≤ n - 1 := by
  unfold twoOptPairs at h
  simp only [List.mem_flatMap, List.mem_map, List.mem_range'_1] at h
  obtain ⟨i, hi, j, hj, rfl⟩ := h
  omega

/-- Invariant of the classical 2-opt state: the route is a permutation of
`range n` starting at 0 and `best_distance` tracks its distance. -/
def TwoOptInv (inst : Inst) (n : Nat) (st : TwoOptSt) : Prop :=
  st.route.Perm (List.range n) ∧ st.route.head? = some 0 ∧
    st.best = calculate_route_distance inst st.route

/-- One candidate visit preserves the 2-opt invariant. -/
theorem twoOptVisit_inv (inst : Inst) (n : Nat) (st : TwoOptSt) (ij : Nat × Nat)
    (hij : ij ∈ twoOptPairs n) (h : TwoOptInv inst n st) :
    TwoOptInv inst n (twoOptVisit inst st ij) := by
  obtain ⟨hb1, hb2, hb3⟩ := twoOptPairs_mem n ij hij
  obtain ⟨h1, h2, h3⟩ := h
  unfold twoOptVisit TwoOptInv
  dsimp only
  split
  · exact ⟨(reverseSegment_perm _ _ _ (by omega)).trans h1,
      (reverseSegment_head _ _ _ (by omega)).trans h2, rfl⟩
  · exact ⟨h1, h2, h3⟩

/-- One 2-opt pass preserves the invariant. -/
theorem twoOptPass_inv (inst : Inst) (n : Nat) (st : TwoOptSt)
    (h : TwoOptInv inst n st) : TwoOptInv inst n (twoOptPass inst n st) := by
  unfold twoOptPass
  exact foldl_preserve _ _ _ (fun st ij hij h => twoOptVisit_inv inst n st ij hij h) _ h

/-- The 2-opt loop preserves the invariant. -/
theorem twoOptLoop_inv (inst : Inst) (n : Nat) :
    ∀ (fuel : Nat) (st : TwoOptSt), TwoOptInv inst n st →
      TwoOptInv inst n (twoOptLoop inst n fuel st) := by
  intro fuel
  induction fuel with
  | zero => intro st h; exact h
  | succ f ih =>
    intro st h
    unfold twoOptLoop
    split
    · exact ih _ (twoOptPass_inv inst n st h)
    · exact h

/-- The classical search result satisfies the 2-opt invariant. -/
theorem classicalFinal_inv (inst : Inst) (hn : 1 ≤ inst.n) :
    TwoOptInv inst inst.n (classicalFinal inst) := by
  unfold classicalFinal
  exact twoOptLoop_inv inst inst.n 1000 _
    ⟨nearest_route_perm _ _ hn, nearest_route_head _ _, rfl⟩

/-- Bounds of the maximal-distance start pair. -/
theorem maxDistPair_bounds (DM : Nat → Nat → ℚ) (n : Nat) (hn : 2 ≤ n) :
    (maxDistPair DM n).1 < (maxDistPair DM n).2 ∧ (maxDistPair DM n).2 < n := by
  unfold maxDistPair
  have h := foldl_preserve
    (fun (acc : (Nat × Nat) × ℚ) => acc.1.1 < acc.1.2 ∧ acc.1.2 < n)
    (fun acc i =>
      (List.range' (i + 1) (n - (i + 1))).foldl
        (fun (acc : (Nat × Nat) × ℚ) j =>
          if acc.2 < DM i j then ((i, j), DM i j) else acc)
        acc)
    (List.range n) ?_ ((0, 1), 0)
    ⟨Nat.zero_lt_one, (by omega : (1 : Nat) < n)⟩
  · exact h
  · intro acc i hi hacc
    refine foldl_preserve
      (fun (acc : (Nat × Nat) × ℚ) => acc.1.1 < acc.1.2 ∧ acc.1.2 < n)
      _ _ ?_ acc hacc
    intro acc2 j hj hacc2
    simp only [List.mem_range'_1] at hj
    simp only [List.mem_range] at hi
    dsimp only
    split
    · exact (⟨by omega, by omega⟩ : i < j ∧ j < n)
    · exact hacc2

/-- Bounds of the best insertion position: always in `[1, len(route)]`. -/
theorem bestInsertPos_bounds (DM : Nat → Nat → ℚ) (route : List Nat) (p : Nat)
    (h : 1 ≤ route.length) :
    1 ≤ bestInsertPos DM route p ∧ bestInsertPos DM route p ≤ route.length := by
  unfold bestInsertPos
  have hfold := foldl_preserve
    (fun (acc : Nat × Option ℚ) => 1 ≤ acc.1 ∧ acc.1 ≤ route.length)
    (fun (acc : Nat × Option ℚ) pos =>
      match acc.2 with
      | none => (pos, some (insertCost DM route p pos))
      | some c =>
        if insertCost DM route p pos < c then (pos, some (insertCost DM route p pos))
        else acc)
    (List.range' 1 route.length) ?_ (1, none) ⟨le_refl 1, h⟩
  · exact hfold
  · intro acc pos hpos hacc
    simp only [List.mem_range'_1] at hpos
    match acc with
    | (a, none) =>
      exact (⟨by omega, by omega⟩ : 1 ≤ pos ∧ pos ≤ route.length)
    | (a, some c) =>
      dsimp only
      split
      · exact (⟨by omega, by omega⟩ : 1 ≤ pos ∧ pos ≤ route.length)
      · exact hacc

/-- The farthest-insertion loop permutes the route and pool together. -/
theorem farthestInsertLoop_perm (DM : Nat → Nat → ℚ) :
    ∀ (fuel : Nat) (pool route : List Nat), pool.length ≤ fuel →
      1 ≤ route.length →
      (farthestInsertLoop DM fuel pool route).Perm (route ++ pool) := by
  intro fuel
  induction fuel with
  | zero =>
    intro pool route hf hr
    have : pool = [] := List.length_eq_zero.mp (Nat.le_zero.mp hf)
    subst this
    simp [farthestInsertLoop]
  | succ f ih =>
    intro pool route hf hr
    match pool with
    | [] => simp [farthestInsertLoop]
    | a :: rest =>
      have hp : argmaxBy (fun x => minOver (fun y => DM x y) route) (a :: rest) ∈
          a :: rest := argmaxBy_mem _ _ (by simp)
      have hpos := bestInsertPos_bounds DM route
        (argmaxBy (fun x => minOver (fun y => DM x y) route) (a :: rest)) hr
      have hlenerase : ((a :: rest).erase
          (argmaxBy (fun x => minOver (fun y => DM x y) route) (a :: rest))).length ≤ f := by
        rw [List.length_erase_of_mem hp]
        simp only [List.length_cons] at hf ⊢
        omega
      have hinsperm : (route.insertIdx
          (bestInsertPos DM route (argmaxBy (fun x => minOver (fun y => DM x y) route) (a :: rest)))
          (argmaxBy (fun x => minOver (fun y => DM x y) route) (a :: rest))).Perm
          ((argmaxBy (fun x => minOver (fun y => DM x y) route) (a :: rest)) :: route) :=
        List.perm_insertIdx _ _ (by omega)
      have hlen2 : 1 ≤ (route.insertIdx
          (bestInsertPos DM route (argmaxBy (fun x => minOver (fun y => DM x y) route) (a :: rest)))
          (argmaxBy (fun x => minOver (fun y => DM x y) route) (a :: rest))).length := by
        have := hinsperm.length_eq
        simp only [List.length_cons] at this
        omega
      have hrec := ih _ _ hlenerase hlen2
      show (farthestInsertLoop DM f _ _).Perm _
      refine hrec.trans ?_
      refine ((hinsperm.append_right _).trans ?_)
      refine List.Perm.trans ?_ ((List.perm_cons_erase hp).symm.append_left route)
      exact List.perm_middle.symm

/-- The farthest-insertion construction is a permutation of `range n`. -/
theorem construct_farthest_insertion_route_perm (DM : Nat → Nat → ℚ) (n : Nat) :
    (construct_farthest_insertion_route DM n).Perm (List.range n) := by
  unfold construct_farthest_insertion_route
  split
  · exact List.Perm.refl _
  · rename_i hn
    have hb := maxDistPair_bounds DM n (by omega)
    have hi : (maxDistPair DM n).1 ∈ List.range n := by
      simp only [List.mem_range]; omega
    have hj : (maxDistPair DM n).2 ∈ (List.range n).erase (maxDistPair DM n).1 := by
      rw [List.mem_erase_of_ne (by omega)]
      simp only [List.mem_range]; omega
    have hperm := farthestInsertLoop_perm DM
      ((((List.range n).erase (maxDistPair DM n).1).erase (maxDistPair DM n).2)).length
      ((((List.range n).erase (maxDistPair DM n).1).erase (maxDistPair DM n).2))
      [(maxDistPair DM n).1, (maxDistPair DM n).2] (le_refl _) (by simp)
    refine hperm.trans ?_
    have h1 : (List.range n).Perm
        ((maxDistPair DM n).1 :: (List.range n).erase (maxDistPair DM n).1) :=
      List.perm_cons_erase hi
    have h2 : ((List.range n).erase (maxDistPair DM n).1).Perm
        ((maxDistPair DM n).2 ::
          (((List.range n).erase (maxDistPair DM n).1).erase (maxDistPair DM n).2)) :=
      List.perm_cons_erase hj
    exact (h1.trans (h2.cons _)).symm

/-- A successful quantum walk visits exactly the pool. -/
theorem qWalkAux_perm (q : QMat) :
    ∀ (fuel cur : Nat) (pool : List Nat) (s : RngS) (r : List Nat),
      (qWalkAux q fuel cur pool s).1 = some r → r.Perm pool := by
  intro fuel
  induction fuel with
  | zero =>
    intro cur pool s r h
    unfold qWalkAux at h
    by_cases hp : pool.isEmpty
    · rw [if_pos hp] at h
      cases h
      rw [List.isEmpty_iff] at hp
      subst hp
      exact List.Perm.refl _
    · rw [if_neg hp] at h
      cases h
  | succ f ih =>
    intro cur pool s r h
    match pool with
    | [] =>
      unfold qWalkAux at h
      cases h
      exact List.Perm.refl _
    | a :: rest =>
      unfold qWalkAux at h
      dsimp only at h
      by_cases hw : 0 < ((a :: rest).map fun j => qGet q cur j).sum
      · rw [if_pos hw] at h
        set x := (a :: rest).getD ((drawNat s).1 % (a :: rest).length) 0 with hx
        have hmem : x ∈ a :: rest := by
          rw [hx]
          have hlt : (drawNat s).1 % (a :: rest).length < (a :: rest).length :=
            Nat.mod_lt _ (by simp)
          rw [List.getD_eq_getElem _ _ hlt]
          exact List.getElem_mem hlt
        rcases hrec : (qWalkAux q f x ((a :: rest).erase x) (drawNat s).2).1 with _ | rest'
        · rw [hrec] at h
          cases h
        · rw [hrec] at h
          cases h
          exact ((ih _ _ _ _ hrec).cons x).trans (List.perm_cons_erase hmem).symm
      · rw [if_neg hw] at h
        cases h

/-- A walk over a pool of positive-weight columns always succeeds. -/
theorem qWalkAux_total (q : QMat)
    (hq : ∀ i j, i < q.length → 1 ≤ j → j < q.length → 0 < qGet q i j) :
    ∀ (fuel cur : Nat) (pool : List Nat) (s : RngS), pool.length ≤ fuel →
      cur < q.length → (∀ x ∈ pool, 1 ≤ x ∧ x < q.length) →
      ∃ r, (qWalkAux q fuel cur pool s).1 = some r := by
  intro fuel
  induction fuel with
  | zero =>
    intro cur pool s hf hcur hpool
    have : pool = [] := List.length_eq_zero.mp (Nat.le_zero.mp hf)
    subst this
    exact ⟨[], rfl⟩
  | succ f ih =>
    intro cur pool s hf hcur hpool
    match pool with
    | [] => exact ⟨[], rfl⟩
    | a :: rest =>
      unfold qWalkAux
      dsimp only
      have hw : 0 < ((a :: rest).map fun j => qGet q cur j).sum := by
        refine List.sum_pos _ ?_ (by simp)
        intro v hv
        simp only [List.mem_map] at hv
        obtain ⟨j, hj, rfl⟩ := hv
        exact hq cur j hcur (hpool j hj).1 (hpool j hj).2
      rw [if_pos hw]
      set x := (a :: rest).getD ((drawNat s).1 % (a :: rest).length) 0 with hx
      have hmem : x ∈ a :: rest := by
        rw [hx]
        have hlt : (drawNat s).1 % (a :: rest).length < (a :: rest).length :=
          Nat.mod_lt _ (by simp)
        rw [List.getD_eq_getElem _ _ hlt]
        exact List.getElem_mem hlt
      have hlen : ((a :: rest).erase x).length ≤ f := by
        rw [List.length_erase_of_mem hmem]
        simp only [List.length_cons] at hf ⊢
        omega
      have hx2 := hpool x hmem
      obtain ⟨r, hr⟩ := ih x ((a :: rest).erase x) (drawNat s).2 hlen hx2.2
        (fun y hy => hpool y (List.mem_of_mem_erase hy))
      rw [hr]
      exact ⟨x :: r, rfl⟩

/-- A successful `_quantum_to_classical_route` yields a permutation of
`range n` starting at 0, for `n = len(quantum_state) ≥ 1`. -/
theorem quantum_to_classical_route_perm (q : QMat) (s : RngS) (r : List Nat)
    (hn : 1 ≤ q.length) (h : (quantum_to_classical_route q s).1 = some r) :
    r.Perm (List.range q.length) ∧ r.head? = some 0 := by
  unfold quantum_to_classical_route at h
  dsimp only at h
  rcases hw : (qWalkAux q (List.range' 1 (q.length - 1)).length 0
      (List.range' 1 (q.length - 1)) s).1 with _ | rest
  · rw [hw] at h
    cases h
  · rw [hw] at h
    cases h
    have hperm := qWalkAux_perm q _ _ _ s rest hw
    constructor
    · rw [range_eq_cons _ hn]
      exact hperm.cons 0
    · rfl

/-- With positive entries `_quantum_to_classical_route` always
succeeds. -/
theorem quantum_to_classical_route_total (q : QMat) (s : RngS)
    (hq : ∀ i j, i < q.length → 1 ≤ j → j < q.length → 0 < qGet q i j)
    (hn : 1 ≤ q.length) :
    ∃ r, (quantum_to_classical_route q s).1 = some r := by
  obtain ⟨r, hr⟩ := qWalkAux_total q hq (List.range' 1 (q.length - 1)).length 0
    (List.range' 1 (q.length - 1)) s (le_refl _) (by omega)
    (fun x hx => by simp only [List.mem_range'_1] at hx; omega)
  unfold quantum_to_classical_route
  dsimp only
  rw [hr]
  exact ⟨0 :: r, rfl⟩

/-- `qSet` preserves the number of rows. -/
theorem qSet_length (q : QMat) (i j : Nat) (v : ℚ) :
    (qSet q i j v).length = q.length := by
  simp [qSet]

/-- Rotation updates preserve the number of rows. -/
theorem quantum_rotation_update_length (q : QMat) (target : List Nat) :
    (quantum_rotation_update q target).length = q.length := by
  unfold quantum_rotation_update
  refine foldl_preserve (fun m : QMat => m.length = q.length)
    (fun m ab => qSet m ab.1 ab.2 (min 1 (qGet m ab.1 ab.2 + 0.1)))
    (consecPairs target) ?_ q rfl
  intro m ab _ hm
  dsimp only
  rw [qSet_length]
  exact hm

/-- Mutation preserves the number of rows. -/
theorem quantum_mutation_length (n : Nat) (q : QMat) (s : RngS) :
    (quantum_mutation n q s).1.length = q.length := by
  unfold quantum_mutation
  refine foldl_preserve (fun acc : QMat × RngS => acc.1.length = q.length)
    (fun acc i =>
      (List.range n).foldl
        (fun acc j =>
          if i = j then acc
          else
            let d := (drawRat acc.2).1
            let s' := (drawRat acc.2).2
            (qSet acc.1 i j (clamp01 (qGet acc.1 i j + d)), s'))
        acc)
    (List.range n) ?_ (q, s) rfl
  intro acc i _ hacc
  refine foldl_preserve (fun acc : QMat × RngS => acc.1.length = q.length)
    (fun acc j =>
      if i = j then acc
      else
        let d := (drawRat acc.2).1
        let s' := (drawRat acc.2).2
        (qSet acc.1 i j (clamp01 (qGet acc.1 i j + d)), s'))
    (List.range n) ?_ acc hacc
  intro acc2 j _ hacc2
  dsimp only
  split
  · exact hacc2
  · rw [qSet_length]
    exact hacc2

/-- The rotated population keeps its row counts. -/
theorem qieaUpdateLoop_length (elites : List (List Nat × ℚ)) :
    ∀ (pop : List QMat) (k : Nat) (s : RngS) (q' : QMat),
      q' ∈ (qieaUpdateLoop elites pop k s).1 →
      ∃ q ∈ pop, q'.length = q.length := by
  intro pop
  induction pop with
  | nil => intro k s q' h; simp [qieaUpdateLoop] at h
  | cons q rest ih =>
    intro k s q' h
    unfold qieaUpdateLoop at h
    dsimp only at h
    rw [List.mem_cons] at h
    rcases h with h | h
    · refine ⟨q, List.mem_cons_self q rest, ?_⟩
      subst h
      have hrot : ((if k % 3 = 0 then elites.take 3
          else if k % 3 = 1 then (elites.drop 5).take 3
          else everyThird elites).foldl
            (fun q rc => quantum_rotation_update q rc.1) q).length = q.length := by
        refine foldl_preserve (fun m : QMat => m.length = q.length)
          (fun m rc => quantum_rotation_update m rc.1)
          (if k % 3 = 0 then elites.take 3
            else if k % 3 = 1 then (elites.drop 5).take 3
            else everyThird elites) ?_ q rfl
        intro m rc _ hm
        dsimp only
        rw [quantum_rotation_update_length]
        exact hm
      split
      · rw [quantum_mutation_length]
        exact hrot
      · exact hrot
    · obtain ⟨q0, hq0, hlen⟩ := ih _ _ _ h
      exact ⟨q0, List.mem_cons_of_mem q hq0, hlen⟩

/-- Any best-so-far value maintained by QIEA is a permutation of
`range n` paired with its own objective. -/
def QBest (inst : Inst) (b : Option (List Nat × ℚ)) : Prop :=
  ∀ r o, b = some (r, o) → r.Perm (List.range inst.n) ∧ o = qiea_objective inst r

/-- `updateBest` preserves `QBest` for a good candidate. -/
theorem updateBest_pres (inst : Inst) (b : Option (List Nat × ℚ))
    (cand : List Nat × ℚ) (hb : QBest inst b)
    (hc : cand.1.Perm (List.range inst.n) ∧ cand.2 = qiea_objective inst cand.1) :
    QBest inst (updateBest b cand) := by
  intro r o h
  rcases b with _ | p
  · unfold updateBest at h
    cases h
    exact hc
  · unfold updateBest at h
    dsimp only at h
    split at h
    · cases h
      exact hc
    · cases h
      exact hb r o rfl

/-- Gen-0 constructions are permutations of `range n`. -/
theorem construct_route_with_method_perm (inst : Inst) (m n : Nat) (s : RngS)
    (hn : 1 ≤ n) :
    (construct_route_with_method inst m n s).1.Perm (List.range n) := by
  unfold construct_route_with_method
  split
  · exact List.Perm.refl _
  · split
    · exact nearest_route_perm _ _ hn
    · split
      · exact nearest_route_perm _ _ hn
      · exact construct_farthest_insertion_route_perm _ _

/-- The evaluation loop keeps `QBest` on success. -/
theorem qieaEvalLoop_best (inst : Inst) (gen : Nat) (hn : 1 ≤ inst.n) :
    ∀ (pop : List QMat) (k : Nat) (best : Option (List Nat × ℚ))
      (sols : List (List Nat × ℚ)) (s : RngS) (sols' : List (List Nat × ℚ))
      (best' : Option (List Nat × ℚ)),
      (∀ q ∈ pop, q.length = inst.n) → QBest inst best →
      (qieaEvalLoop inst gen pop k best sols s).1 = some (sols', best') →
      QBest inst best' := by
  intro pop
  induction pop with
  | nil =>
    intro k best sols s sols' best' hlen hb h
    unfold qieaEvalLoop at h
    cases h
    exact hb
  | cons q rest ih =>
    intro k best sols s sols' best' hlen hb h
    unfold qieaEvalLoop at h
    dsimp only at h
    rcases hm : (qieaMaterialize inst gen k q s).1 with _ | r
    · rw [hm] at h
      simp at h
    · rw [hm] at h
      dsimp only at h
      refine ih _ _ _ _ _ _ (fun q' hq' => hlen q' (List.mem_cons_of_mem q hq')) ?_ h
      refine updateBest_pres inst best _ hb ⟨?_, rfl⟩
      unfold qieaMaterialize at hm
      split at hm
      · cases hm
        exact construct_route_with_method_perm inst _ _ _ hn
      · have hql : q.length = inst.n := hlen q (List.mem_cons_self q rest)
        have := quantum_to_classical_route_perm q s r (by omega) hm
        rw [hql] at this
        exact this.1

/-- Fresh quantum matrices have `k` rows. -/
theorem qInitMat_length (n : Nat) :
    ∀ (k : Nat) (s : RngS), (qInitMat n k s).1.length = k := by
  intro k
  induction k with
  | zero => intro s; rfl
  | succ m ih =>
    intro s
    unfold qInitMat
    dsimp only
    rw [List.length_cons, ih]

/-- Every matrix of the fresh population is `n`-rowed. -/
theorem qInitPop_length (n : Nat) :
    ∀ (k : Nat) (s : RngS) (q : QMat), q ∈ (qInitPop n k s).1 → q.length = n := by
  intro k
  induction k with
  | zero => intro s q h; simp [qInitPop] at h
  | succ m ih =>
    intro s q h
    unfold qInitPop at h
    dsimp only at h
    rw [List.mem_cons] at h
    rcases h with h | h
    · rw [h]
      exact qInitMat_length n n _
    · exact ih _ _ h

/-- The QIEA generation invariant: population matrices keep `n` rows and
the best is a well-formed candidate. -/
def QInv (inst : Inst) (st : QieaSt) : Prop :=
  (∀ q ∈ st.population, q.length = inst.n) ∧ QBest inst st.best

/-- One generation preserves the invariant. -/
theorem qieaGenStep_inv (inst : Inst) (gen : Nat) (st : QieaSt) (s : RngS)
    (st' : QieaSt) (hn : 1 ≤ inst.n) (h : QInv inst st)
    (hstep : (qieaGenStep inst gen st s).1 = some st') : QInv inst st' := by
  unfold qieaGenStep at hstep
  dsimp only at hstep
  rcases hev : (qieaEvalLoop inst gen st.population 0 st.best [] s).1 with _ | sb
  · rw [hev] at hstep
    cases hstep
  · rw [hev] at hstep
    dsimp only at hstep
    cases hstep
    constructor
    · intro q' hq'
      obtain ⟨q0, hq0, hl⟩ := qieaUpdateLoop_length _ _ _ _ _ hq'
      rw [hl]
      exact h.1 q0 hq0
    · exact qieaEvalLoop_best inst gen hn _ _ _ _ _ _ _ h.1 h.2 (by rw [hev])

/-- The generation loop preserves the invariant. -/
theorem qieaGenLoop_inv (inst : Inst) (hn : 1 ≤ inst.n) :
    ∀ (fuel gen : Nat) (st : QieaSt) (s : RngS) (st' : QieaSt), QInv inst st →
      (qieaGenLoop inst fuel gen st s).1 = some st' → QInv inst st' := by
  intro fuel
  induction fuel with
  | zero =>
    intro gen st s st' h hl
    unfold qieaGenLoop at hl
    cases hl
    exact h
  | succ f ih =>
    intro gen st s st' h hl
    unfold qieaGenLoop at hl
    dsimp only at hl
    rcases hstp : (qieaGenStep inst gen st s).1 with _ | st1
    · rw [hstp] at hl
      cases hl
    · rw [hstp] at hl
      exact ih _ _ _ _ (qieaGenStep_inv inst gen st s st1 hn h hstp) hl

/-- A successful QIEA run returns the best route, a permutation of
`range n`, with distance, time, and objective computed from it. -/
theorem optimize_qiea_ok (env : Env) (inst : Inst) (s : RngS) (r : RouteResult)
    (hn : 3 ≤ inst.n) (h : (optimize_qiea env inst s).1 = .ok r) :
    ∃ rt : List Nat, r.route_order = rt.map inst.idAt ∧
      rt.Perm (List.range inst.n) ∧
      r.distance_km = calculate_route_distance inst rt ∧
      r.time_min = route_time inst rt ∧
      r.objective_value = qiea_objective inst rt := by
  unfold optimize_qiea at h
  rw [if_neg (by omega)] at h
  dsimp only at h
  rcases hgl : (qieaGenLoop inst 250 0
      ⟨(qInitPop inst.n 60 (reseed env (randint 1 10000 s).1)).1, none, []⟩
      (qInitPop inst.n 60 (reseed env (randint 1 10000 s).1)).2).1 with _ | stf
  · rw [hgl] at h
    cases h
  · rw [hgl] at h
    dsimp only at h
    have hinv := qieaGenLoop_inv inst (by omega) 250 0 _ _ stf
      ⟨fun q hq => qInitPop_length inst.n 60 _ q hq, fun r o hro => by cases hro⟩ hgl
    rcases hbest : stf.best with _ | ro
    · rw [hbest] at h
      cases h
    · rw [hbest] at h
      dsimp only at h
      cases h
      obtain ⟨hperm, hobj⟩ := hinv.2 ro.1 ro.2 (by rw [hbest])
      exact ⟨ro.1, rfl, hperm, rfl, rfl, hobj⟩

/-- The QAOA sampling walk visits exactly the pool. -/
theorem qaoaWalkAux_perm (P : Nat → Nat → ℚ) :
    ∀ (fuel cur : Nat) (pool : List Nat) (s : RngS), pool.length ≤ fuel →
      (qaoaWalkAux P fuel cur pool s).1.Perm pool := by
  intro fuel
  induction fuel with
  | zero =>
    intro cur pool s h
    have : pool = [] := List.length_eq_zero.mp (Nat.le_zero.mp h)
    subst this
    simp [qaoaWalkAux]
  | succ f ih =>
    intro cur pool s h
    match pool with
    | [] => simp [qaoaWalkAux]
    | a :: rest =>
      unfold qaoaWalkAux
      dsimp only
      set x := (a :: rest).getD ((drawNat s).1 % (a :: rest).length) 0 with hx
      have hmem : x ∈ a :: rest := by
        rw [hx]
        have hlt : (drawNat s).1 % (a :: rest).length < (a :: rest).length :=
          Nat.mod_lt _ (by simp)
        rw [List.getD_eq_getElem _ _ hlt]
        exact List.getElem_mem hlt
      have hlen : ((a :: rest).erase x).length ≤ f := by
        rw [List.length_erase_of_mem hmem]
        simp only [List.length_cons] at h ⊢
        omega
      exact ((ih x _ (drawNat s).2 hlen).cons x).trans
        (List.perm_cons_erase hmem).symm

/-- The QAOA route sampler yields a permutation of `range n` headed by
index 0. -/
theorem sample_route_from_probabilities_spec (P : Nat → Nat → ℚ) (n : Nat)
    (s : RngS) (hn : 1 ≤ n) :
    (sample_route_from_probabilities P n s).1.Perm (List.range n) ∧
      (sample_route_from_probabilities P n s).1.head? = some 0 := by
  unfold sample_route_from_probabilities
  dsimp only
  constructor
  · rw [range_eq_cons n hn]
    exact (qaoaWalkAux_perm P _ 0 _ s (le_refl _)).cons 0
  · rfl

/-- A hit of the bounded 2-opt scan is a reversal of a scanned pair. -/
theorem findFirstImprove_spec (inst : Inst) (r : List Nat) (best : ℚ) :
    ∀ (pairs : List (Nat × Nat)) (nr : List Nat) (nd : ℚ),
      findFirstImprove inst r best pairs = some (nr, nd) →
      ∃ ij ∈ pairs, nr = reverseSegment r ij.1 ij.2 := by
  intro pairs
  induction pairs with
  | nil => intro nr nd h; cases h
  | cons ij rest ih =>
    intro nr nd h
    unfold findFirstImprove at h
    dsimp only at h
    split at h
    · cases h
      exact ⟨ij, List.mem_cons_self ij rest, rfl⟩
    · obtain ⟨ij', hij', hr⟩ := ih nr nd h
      exact ⟨ij', List.mem_cons_of_mem ij hij', hr⟩

/-- The bounded 2-opt pass loop keeps the route a permutation of
`range n` headed by 0. -/
theorem limited2OptGo_inv (inst : Inst) (n : Nat) :
    ∀ (fuel : Nat) (r : List Nat) (best : ℚ), r.Perm (List.range n) →
      r.head? = some 0 →
      (limited2OptGo inst fuel r best).Perm (List.range n) ∧
        (limited2OptGo inst fuel r best).head? = some 0 := by
  intro fuel
  induction fuel with
  | zero => intro r best h1 h2; exact ⟨h1, h2⟩
  | succ f ih =>
    intro r best h1 h2
    unfold limited2OptGo
    rcases hf : findFirstImprove inst r best (twoOptPairs r.length) with _ | nrd
    · exact ⟨h1, h2⟩
    · obtain ⟨ij, hij, hnr⟩ := findFirstImprove_spec inst r best _ nrd.1 nrd.2
        (by rw [hf])
      obtain ⟨hb1, hb2, hb3⟩ := twoOptPairs_mem _ _ hij
      have hperm : nrd.1.Perm (List.range n) :=
        hnr ▸ (reverseSegment_perm r ij.1 ij.2 (by omega)).trans h1
      have hhead : nrd.1.head? = some 0 :=
        hnr ▸ (reverseSegment_head r ij.1 ij.2 (by omega)).trans h2
      exact ih nrd.1 nrd.2 hperm hhead

/-- `_local_search_2opt_limited` keeps the route a permutation of
`range n` headed by 0. -/
theorem local_search_2opt_limited_inv (inst : Inst) (n : Nat) (r : List Nat)
    (maxIterations : Nat) (h1 : r.Perm (List.range n)) (h2 : r.head? = some 0) :
    (local_search_2opt_limited inst r maxIterations).Perm (List.range n) ∧
      (local_search_2opt_limited inst r maxIterations).head? = some 0 := by
  unfold local_search_2opt_limited
  split
  · exact ⟨h1, h2⟩
  · exact limited2OptGo_inv inst n maxIterations r _ h1 h2

/-- One QAOA sample is a permutation of `range n` headed by 0. -/
theorem qaoaSampleOne_spec (inst : Inst) (P : Nat → Nat → ℚ)
    (n step steps : Nat) (s : RngS) (hn : 1 ≤ n) :
    (qaoaSampleOne inst P n step steps s).1.Perm (List.range n) ∧
      (qaoaSampleOne inst P n step steps s).1.head? = some 0 := by
  unfold qaoaSampleOne
  split
  · exact sample_route_from_probabilities_spec P n s hn
  · split
    · dsimp only
      split
      · exact sample_route_from_probabilities_spec P n _ hn
      · exact ⟨nearest_route_perm _ _ hn, nearest_route_head _ _⟩
    · dsimp only
      have hs := sample_route_from_probabilities_spec P n s hn
      exact local_search_2opt_limited_inv inst n _ 10 hs.1 hs.2

/-- The per-predicate form of the best-so-far preservation. -/
theorem updateBest_pres_gen (Pc : List Nat × ℚ → Prop)
    (b : Option (List Nat × ℚ)) (cand : List Nat × ℚ)
    (hb : ∀ p, b = some p → Pc p) (hc : Pc cand) :
    ∀ p, updateBest b cand = some p → Pc p := by
  intro p h
  rcases b with _ | b0
  · unfold updateBest at h
    cases h
    exact hc
  · unfold updateBest at h
    dsimp only at h
    split at h
    · cases h
      exact hc
    · cases h
      exact hb p rfl

/-- The QAOA best candidate is a 0-headed permutation with its own
objective value. -/
def QaoaBest (inst : Inst) (b : Option (List Nat × ℚ)) : Prop :=
  ∀ p : List Nat × ℚ, b = some p →
    p.1.Perm (List.range inst.n) ∧ p.1.head? = some 0 ∧
      p.2 = qaoa_objective inst p.1

/-- The QAOA sample loop preserves `QaoaBest`. -/
theorem qaoaSampleLoop_best (inst : Inst) (P : Nat → Nat → ℚ)
    (step steps : Nat) (hn : 1 ≤ inst.n) :
    ∀ (k : Nat) (best : Option (List Nat × ℚ)) (s : RngS),
      QaoaBest inst best →
      QaoaBest inst (qaoaSampleLoop inst P inst.n step steps k best s).1 := by
  intro k
  induction k with
  | zero => intro best s h; exact h
  | succ m ih =>
    intro best s h
    unfold qaoaSampleLoop
    dsimp only
    refine ih _ _ ?_
    refine updateBest_pres_gen _ _ _ h ?_
    have := qaoaSampleOne_spec inst P inst.n step steps s hn
    exact ⟨this.1, this.2, rfl⟩

/-- One QAOA step preserves `QaoaBest`. -/
theorem qaoaStep_best (env : Env) (inst : Inst) (steps pDepth : Nat)
    (initialRoute : List Nat) (step : Nat) (st : QaoaSt) (s : RngS)
    (hn : 1 ≤ inst.n) (h : QaoaBest inst st.best) :
    QaoaBest inst (qaoaStep env inst inst.n steps pDepth initialRoute step st s).1.best := by
  unfold qaoaStep
  dsimp only
  exact qaoaSampleLoop_best inst _ step steps hn _ st.best s h

/-- The QAOA step loop preserves `QaoaBest`. -/
theorem qaoaStepLoop_best (env : Env) (inst : Inst) (steps pDepth : Nat)
    (initialRoute : List Nat) (hn : 1 ≤ inst.n) :
    ∀ (fuel step : Nat) (st : QaoaSt) (s : RngS), QaoaBest inst st.best →
      QaoaBest inst
        (qaoaStepLoop env inst inst.n steps pDepth initialRoute fuel step st s).1.best := by
  intro fuel
  induction fuel with
  | zero => intro step st s h; exact h
  | succ f ih =>
    intro step st s h
    unfold qaoaStepLoop
    dsimp only
    exact ih _ _ _ (qaoaStep_best env inst steps pDepth initialRoute step st s hn h)

/-- Inversion of the QAOA result assembly. -/
theorem qaoaFinish_ok (inst : Inst) (sd : Nat) (sl : QaoaSt × RngS)
    (r : RouteResult) (h : (qaoaFinish inst sd sl).1 = .ok r) :
    ∃ ro : List Nat × ℚ, sl.1.best = some ro ∧
      r.route_order = ro.1.map inst.idAt ∧
      r.distance_km = calculate_route_distance inst ro.1 ∧
      r.time_min = route_time inst ro.1 ∧
      r.objective_value = ro.2 := by
  unfold qaoaFinish at h
  rcases hbest : sl.1.best with _ | ro
  · rw [hbest] at h
    cases h
  · rw [hbest] at h
    dsimp only at h
    cases h
    exact ⟨ro, rfl, rfl, rfl, rfl, rfl⟩

/-- Unfolding of `_optimize_qaoa` on the main path. -/
theorem optimize_qaoa_spec (env : Env) (inst : Inst) (s : RngS)
    (hn : 3 ≤ inst.n) :
    optimize_qaoa env inst s = qaoaFinish inst (randint 1 10000 s).1
      (qaoaStepLoop env inst inst.n 120 4 (nearest_route inst.T inst.n) 120 0
        { gamma := (uniformVec 0.2 0.8 4 (reseed env (randint 1 10000 s).1)).1
          beta := (uniformVec 0.1 0.4 4
            (uniformVec 0.2 0.8 4 (reseed env (randint 1 10000 s).1)).2).1
          best := none, log := [] }
        (uniformVec 0.1 0.4 4
          (uniformVec 0.2 0.8 4 (reseed env (randint 1 10000 s).1)).2).2) := by
  unfold optimize_qaoa
  rw [if_neg (by omega : ¬ inst.n ≤ 2)]
/-- A successful QAOA run returns its best route, a permutation of
`range n` headed by 0, with distance, time, and objective computed from
it. -/
theorem optimize_qaoa_ok (env : Env) (inst : Inst) (s : RngS) (r : RouteResult)
    (hn : 3 ≤ inst.n) (h : (optimize_qaoa env inst s).1 = .ok r) :
    ∃ rt : List Nat, r.route_order = rt.map inst.idAt ∧
      rt.Perm (List.range inst.n) ∧ rt.head? = some 0 ∧
      r.distance_km = calculate_route_distance inst rt ∧
      r.time_min = route_time inst rt ∧
      r.objective_value = qaoa_objective inst rt := by
  rw [optimize_qaoa_spec env inst s hn] at h
  obtain ⟨ro, hbest, hro, hd, ht, ho⟩ := qaoaFinish_ok inst (randint 1 10000 s).1
    (qaoaStepLoop env inst inst.n 120 4 (nearest_route inst.T inst.n) 120 0
      { gamma := (uniformVec 0.2 0.8 4 (reseed env (randint 1 10000 s).1)).1
        beta := (uniformVec 0.1 0.4 4
          (uniformVec 0.2 0.8 4 (reseed env (randint 1 10000 s).1)).2).1
        best := none, log := [] }
      (uniformVec 0.1 0.4 4
        (uniformVec 0.2 0.8 4 (reseed env (randint 1 10000 s).1)).2).2) r h
  obtain ⟨hperm, hhead, hobj⟩ :=
    qaoaStepLoop_best env inst 120 4 (nearest_route inst.T inst.n) (by omega) 120 0
      { gamma := (uniformVec 0.2 0.8 4 (reseed env (randint 1 10000 s).1)).1
        beta := (uniformVec 0.1 0.4 4
          (uniformVec 0.2 0.8 4 (reseed env (randint 1 10000 s).1)).2).1
        best := none, log := [] }
      (uniformVec 0.1 0.4 4
        (uniformVec 0.2 0.8 4 (reseed env (randint 1 10000 s).1)).2).2
      (fun p hp => by cases hp) ro hbest
  exact ⟨ro.1, hro, hperm, hhead, hd, ht, ho.trans hobj⟩

/-- Unfolding of `_optimize_simulated_annealing` on the main path. -/
theorem optimize_simulated_annealing_spec (env : Env) (inst : Inst) (s : RngS)
    (hn : 3 ≤ inst.n) :
    optimize_simulated_annealing env inst s =
      saFinish inst (randint 1 10000 s).1
        (saLoop env inst inst.n 5000 1 (saInit env inst (randint 1 10000 s).1)) := by
  unfold optimize_simulated_annealing
  rw [if_neg (by omega : ¬ inst.n ≤ 2)]

/-- The initial SA state satisfies the SA invariant. -/
theorem saInit_inv (env : Env) (inst : Inst) (sd : Nat) (hn : 1 ≤ inst.n) :
    SaInv inst.n (saInit env inst sd) :=
  ⟨nearest_route_perm _ _ hn, nearest_route_head _ _,
    nearest_route_perm _ _ hn, nearest_route_head _ _⟩

/-- The SA result on the main path: the returned order is the best route,
a permutation of `range n` headed by 0, with distance and time summed
over it and the hybrid objective of it reported. -/
theorem optimize_simulated_annealing_ok (env : Env) (inst : Inst) (s : RngS)
    (hn : 3 ≤ inst.n) :
    ∃ rt : List Nat,
      (optimize_simulated_annealing env inst s).1.route_order = rt.map inst.idAt ∧
      rt.Perm (List.range inst.n) ∧ rt.head? = some 0 ∧
      (optimize_simulated_annealing env inst s).1.distance_km =
        calculate_route_distance inst rt ∧
      (optimize_simulated_annealing env inst s).1.time_min = route_time inst rt := by
  rw [optimize_simulated_annealing_spec env inst s hn]
  have hinv := saLoop_inv env inst inst.n 5000 1
    (saInit env inst (randint 1 10000 s).1)
    (saInit_inv env inst (randint 1 10000 s).1 (by omega))
  exact ⟨(saLoop env inst inst.n 5000 1 (saInit env inst (randint 1 10000 s).1)).1.bestRoute,
    rfl, hinv.2.2.1, hinv.2.2.2, rfl, rfl⟩

/-- Unfolding of `_optimize_classical` on the main path. -/
theorem optimize_classical_spec (inst : Inst) (s : RngS) (hn : 3 ≤ inst.n) :
    optimize_classical inst s =
      ({ route_order := (classicalFinal inst).route.map inst.idAt, polyline := ""
         distance_km := (classicalFinal inst).best
         time_min := route_time inst (classicalFinal inst).route
         objective_value := (classicalFinal inst).best
         iterations_log := (classicalFinal inst).log
         seed := 0
         algorithm_params := [("method", "greedy_2opt"),
           ("iterations", toString (classicalFinal inst).iters),
           ("strategy", "shortest_distance")] }, s) := by
  unfold optimize_classical
  rw [if_neg (by omega : ¬ inst.n ≤ 2)]

/-- The classical result on the main path: the returned order is the
final 2-opt route, a permutation of `range n` headed by 0, with the
tracked best distance equal to its distance and time summed over it. -/
theorem optimize_classical_ok (inst : Inst) (s : RngS) (hn : 3 ≤ inst.n) :
    ∃ rt : List Nat,
      (optimize_classical inst s).1.route_order = rt.map inst.idAt ∧
      rt.Perm (List.range inst.n) ∧ rt.head? = some 0 ∧
      (optimize_classical inst s).1.distance_km =
        calculate_route_distance inst rt ∧
      (optimize_classical inst s).1.time_min = route_time inst rt ∧
      (optimize_classical inst s).1.objective_value =
        calculate_route_distance inst rt := by
  rw [optimize_classical_spec inst s hn]
  have hinv := classicalFinal_inv inst (by omega)
  exact ⟨(classicalFinal inst).route, rfl, hinv.1, hinv.2.1, hinv.2.2, rfl, hinv.2.2⟩

/-- Every algorithm takes the early-return path at `n ≤ 2`, returning the
identity order with hard-coded zero distance, time, and objective and an
empty log. -/
theorem n2_results (env : Env) (inst : Inst) (s : RngS) (hn : inst.n ≤ 2) :
    (optimize_classical inst s).1 =
      { route_order := inst.ids, polyline := "", distance_km := 0
        time_min := 0, objective_value := 0, iterations_log := [], seed := 0
        algorithm_params := [("method", "greedy_2opt")] } ∧
    (optimize_simulated_annealing env inst s).1 =
      { route_order := inst.ids, polyline := "", distance_km := 0
        time_min := 0, objective_value := 0, iterations_log := []
        seed := (randint 1 10000 s).1
        algorithm_params := [("method", "simulated_annealing")] } ∧
    (optimize_qiea env inst s).1 =
      .ok { route_order := inst.ids, polyline := "", distance_km := 0
            time_min := 0, objective_value := 0, iterations_log := []
            seed := (randint 1 10000 s).1
            algorithm_params := [("method", "qiea")] } ∧
    (optimize_qaoa env inst s).1 =
      .ok { route_order := inst.ids, polyline := "", distance_km := 0
            time_min := 0, objective_value := 0, iterations_log := []
            seed := (randint 1 10000 s).1
            algorithm_params := [("method", "qaoa")] } := by
  refine ⟨?_, ?_, ?_, ?_⟩
  · unfold optimize_classical
    rw [if_pos hn]
  · unfold optimize_simulated_annealing
    rw [if_pos hn]
  · unfold optimize_qiea
    rw [if_pos hn]
  · unfold optimize_qaoa
    rw [if_pos hn]

/-! ### Concrete test data -/

/-- The all-zero oracle stream. -/
def zeroRng : Rng := ⟨fun _ => 0, fun _ => 0⟩

/-- Oracle state over the all-zero stream. -/
def rngZero : RngS := ⟨zeroRng, 0⟩

/-- A constant oracle stream: every natural draw is 0, every rational
draw is `1/2`. -/
def halfRng : Rng := ⟨fun _ => 0, fun _ => 1/2⟩

/-- A concrete environment over the constant stream, with `exp` modelled
as the constant `1/2` and `π` as 3. -/
def envHalf : Env := ⟨fun _ => halfRng, fun _ => 1/2, 3⟩

/-- Two stops with unit distance and time. -/
def instB : Inst :=
  ⟨[⟨"A", 0, 0⟩, ⟨"B", 0, 0⟩],
    fun i j => if i = j then 0 else 1,
    fun i j => if i = j then 0 else 1⟩

/-- Two stops at distance and time 7. -/
def instB7 : Inst :=
  ⟨[⟨"A", 0, 0⟩, ⟨"B", 0, 0⟩],
    fun i j => if i = j then 0 else 7,
    fun i j => if i = j then 0 else 7⟩

/-- Five stops with unit distances and times. -/
def inst5 : Inst :=
  ⟨[⟨"A", 0, 0⟩, ⟨"B", 0, 0⟩, ⟨"C", 0, 0⟩, ⟨"D", 0, 0⟩, ⟨"E", 0, 0⟩],
    fun i j => if i = j then 0 else 1,
    fun i j => if i = j then 0 else 1⟩

/-- A 3-city matrix whose maximal entry is `D[1][2]`, making the
farthest-insertion construction start away from index 0, and whose
routes leaving index 0 are all expensive. -/
def DC : Nat → Nat → ℚ := fun i j =>
  if i = j then 0
  else if i = 0 then 9
  else if i = 1 then (if j = 2 then 10 else 1/2)
  else (if j = 0 then 1/2 else 9)

/-- The 3-stop instance over `DC`. -/
def instC : Inst := ⟨[⟨"A", 0, 0⟩, ⟨"B", 0, 0⟩, ⟨"C", 0, 0⟩], DC, DC⟩

/-! ### Claim C2 -/

/-- C2, counterexample: at `n = 2` the classical optimizer reports
`distance_km = 0` although the sum of `D` over the returned route
`[A, B]` is 1 — the early-return path hard-codes zeros instead of the
consecutive-pair sums. -/
theorem c2_counterexample :
    (optimize_classical instB rngZero).1.route_order = ["A", "B"] ∧
    (optimize_classical instB rngZero).1.distance_km = 0 ∧
    pairSum instB.D [0, 1] = 1 ∧
    (optimize_classical instB rngZero).1.time_min = 0 ∧
    pairSum instB.T [0, 1] = 1 ∧ (0 : ℚ) ≠ 1 := by
  refine ⟨rfl, rfl, by norm_num [pairSum, instB], rfl,
    by norm_num [pairSum, instB], by norm_num⟩

/-- C2, amended: for instances with `n ≥ 3`, every algorithm's
`distance_km` and `time_min` are exactly the sums of `D` resp. `T` over
consecutive pairs of the returned route in index form (for QIEA and QAOA
on their successful runs); at `n = 2` the early-return path returns
hard-coded zeros instead. -/
theorem c2_amended (env : Env) (inst : Inst) (s : RngS) (hn : 3 ≤ inst.n) :
    (∃ rt : List Nat,
      (optimize_classical inst s).1.route_order = rt.map inst.idAt ∧
      (optimize_classical inst s).1.distance_km = calculate_route_distance inst rt ∧
      (optimize_classical inst s).1.time_min = route_time inst rt) ∧
    (∃ rt : List Nat,
      (optimize_simulated_annealing env inst s).1.route_order = rt.map inst.idAt ∧
      (optimize_simulated_annealing env inst s).1.distance_km =
        calculate_route_distance inst rt ∧
      (optimize_simulated_annealing env inst s).1.time_min = route_time inst rt) ∧
    (∀ r : RouteResult, (optimize_qiea env inst s).1 = .ok r →
      ∃ rt : List Nat, r.route_order = rt.map inst.idAt ∧
        r.distance_km = calculate_route_distance inst rt ∧
        r.time_min = route_time inst rt) ∧
    (∀ r : RouteResult, (optimize_qaoa env inst s).1 = .ok r →
      ∃ rt : List Nat, r.route_order = rt.map inst.idAt ∧
        r.distance_km = calculate_route_distance inst rt ∧
        r.time_min = route_time inst rt) := by
  refine ⟨?_, ?_, ?_, ?_⟩
  · obtain ⟨rt, h1, _, _, h2, h3, _⟩ := optimize_classical_ok inst s hn
    exact ⟨rt, h1, h2, h3⟩
  · obtain ⟨rt, h1, _, _, h2, h3⟩ := optimize_simulated_annealing_ok env inst s hn
    exact ⟨rt, h1, h2, h3⟩
  · intro r hr
    obtain ⟨rt, h1, _, h2, h3, _⟩ := optimize_qiea_ok env inst s r hn hr
    exact ⟨rt, h1, h2, h3⟩
  · intro r hr
    obtain ⟨rt, h1, _, _, h2, h3, _⟩ := optimize_qaoa_ok env inst s r hn hr
    exact ⟨rt, h1, h2, h3⟩

/-- C2, witness: the amended statement applied to a concrete 3-stop
instance. -/
theorem c2_witness :
    3 ≤ instC.n ∧
    ((∃ rt : List Nat,
      (optimize_classical instC rngZero).1.route_order = rt.map instC.idAt ∧
      (optimize_classical instC rngZero).1.distance_km =
        calculate_route_distance instC rt ∧
      (optimize_classical instC rngZero).1.time_min = route_time instC rt) ∧
    (∃ rt : List Nat,
      (optimize_simulated_annealing envHalf instC rngZero).1.route_order =
        rt.map instC.idAt ∧
      (optimize_simulated_annealing envHalf instC rngZero).1.distance_km =
        calculate_route_distance instC rt ∧
      (optimize_simulated_annealing envHalf instC rngZero).1.time_min =
        route_time instC rt) ∧
    (∀ r : RouteResult, (optimize_qiea envHalf instC rngZero).1 = .ok r →
      ∃ rt : List Nat, r.route_order = rt.map instC.idAt ∧
        r.distance_km = calculate_route_distance instC rt ∧
        r.time_min = route_time instC rt) ∧
    (∀ r : RouteResult, (optimize_qaoa envHalf instC rngZero).1 = .ok r →
      ∃ rt : List Nat, r.route_order = rt.map instC.idAt ∧
        r.distance_km = calculate_route_distance instC rt ∧
        r.time_min = route_time instC rt)) :=
  ⟨by decide, c2_amended envHalf instC rngZero (by decide)⟩

/-! ### Claim C5 -/

/-- C5, counterexample: at `n = 2` with `D[0][1] = 7`, every algorithm
returns `distance_km = 0 ≠ D[0][1]`, `time_min = 0 ≠ T[0][1]`, and
`objective_value = 0` even though `D[0][1] ≠ 0`. -/
theorem c5_counterexample :
    instB7.D 0 1 = 7 ∧ (7 : ℚ) ≠ 0 ∧
    (optimize_classical instB7 rngZero).1.distance_km = 0 ∧
    (optimize_classical instB7 rngZero).1.objective_value = 0 ∧
    (optimize_simulated_annealing envHalf instB7 rngZero).1.distance_km = 0 ∧
    (optimize_simulated_annealing envHalf instB7 rngZero).1.objective_value = 0 ∧
    (optimize_qiea envHalf instB7 rngZero).1.map (·.distance_km) = .ok 0 ∧
    (optimize_qiea envHalf instB7 rngZero).1.map (·.objective_value) = .ok 0 ∧
    (optimize_qaoa envHalf instB7 rngZero).1.map (·.distance_km) = .ok 0 ∧
    (optimize_qaoa envHalf instB7 rngZero).1.map (·.objective_value) = .ok 0 := by
  refine ⟨by norm_num [instB7], by norm_num, ?_, ?_, ?_, ?_, ?_, ?_, ?_, ?_⟩ <;> rfl

/-- C5, amended: at `n = 2` every algorithm early-returns
`[loc[0].id, loc[1].id]` with `distance_km = 0`, `time_min = 0`,
`objective_value = 0` (regardless of `D[0][1]`), and an empty
`iterations_log`. -/
theorem c5_amended (env : Env) (inst : Inst) (s : RngS) (hn : inst.n = 2) :
    (optimize_classical inst s).1.route_order = inst.ids ∧
    (optimize_classical inst s).1.distance_km = 0 ∧
    (optimize_classical inst s).1.time_min = 0 ∧
    (optimize_classical inst s).1.objective_value = 0 ∧
    (optimize_classical inst s).1.iterations_log = [] ∧
    (optimize_simulated_annealing env inst s).1.route_order = inst.ids ∧
    (optimize_simulated_annealing env inst s).1.distance_km = 0 ∧
    (optimize_simulated_annealing env inst s).1.time_min = 0 ∧
    (optimize_simulated_annealing env inst s).1.objective_value = 0 ∧
    (optimize_simulated_annealing env inst s).1.iterations_log = [] ∧
    (optimize_qiea env inst s).1.map (·.route_order) = .ok inst.ids ∧
    (optimize_qiea env inst s).1.map (·.distance_km) = .ok 0 ∧
    (optimize_qiea env inst s).1.map (·.time_min) = .ok 0 ∧
    (optimize_qiea env inst s).1.map (·.objective_value) = .ok 0 ∧
    (optimize_qiea env inst s).1.map (·.iterations_log) = .ok [] ∧
    (optimize_qaoa env inst s).1.map (·.route_order) = .ok inst.ids ∧
    (optimize_qaoa env inst s).1.map (·.distance_km) = .ok 0 ∧
    (optimize_qaoa env inst s).1.map (·.time_min) = .ok 0 ∧
    (optimize_qaoa env inst s).1.map (·.objective_value) = .ok 0 ∧
    (optimize_qaoa env inst s).1.map (·.iterations_log) = .ok [] := by
  obtain ⟨h1, h2, h3, h4⟩ := n2_results env inst s (by omega)
  rw [h1, h2, h3, h4]
  refine ⟨rfl, rfl, rfl, rfl, rfl, rfl, rfl, rfl, rfl, rfl, rfl, rfl, rfl, rfl,
    rfl, rfl, rfl, rfl, rfl, rfl⟩

/-- C5, witness: the amended statement at the concrete 2-stop instance
with `D[0][1] = 7`. -/
theorem c5_witness :
    instB7.n = 2 ∧
    ((optimize_classical instB7 rngZero).1.route_order = instB7.ids ∧
    (optimize_classical instB7 rngZero).1.distance_km = 0 ∧
    (optimize_classical instB7 rngZero).1.time_min = 0 ∧
    (optimize_classical instB7 rngZero).1.objective_value = 0 ∧
    (optimize_classical instB7 rngZero).1.iterations_log = [] ∧
    (optimize_simulated_annealing envHalf instB7 rngZero).1.route_order = instB7.ids ∧
    (optimize_simulated_annealing envHalf instB7 rngZero).1.distance_km = 0 ∧
    (optimize_simulated_annealing envHalf instB7 rngZero).1.time_min = 0 ∧
    (optimize_simulated_annealing envHalf instB7 rngZero).1.objective_value = 0 ∧
    (optimize_simulated_annealing envHalf instB7 rngZero).1.iterations_log = [] ∧
    (optimize_qiea envHalf instB7 rngZero).1.map (·.route_order) = .ok instB7.ids ∧
    (optimize_qiea envHalf instB7 rngZero).1.map (·.distance_km) = .ok 0 ∧
    (optimize_qiea envHalf instB7 rngZero).1.map (·.time_min) = .ok 0 ∧
    (optimize_qiea envHalf instB7 rngZero).1.map (·.objective_value) = .ok 0 ∧
    (optimize_qiea envHalf instB7 rngZero).1.map (·.iterations_log) = .ok [] ∧
    (optimize_qaoa envHalf instB7 rngZero).1.map (·.route_order) = .ok instB7.ids ∧
    (optimize_qaoa envHalf instB7 rngZero).1.map (·.distance_km) = .ok 0 ∧
    (optimize_qaoa envHalf instB7 rngZero).1.map (·.time_min) = .ok 0 ∧
    (optimize_qaoa envHalf instB7 rngZero).1.map (·.objective_value) = .ok 0 ∧
    (optimize_qaoa envHalf instB7 rngZero).1.map (·.iterations_log) = .ok []) :=
  ⟨by decide, c5_amended envHalf instB7 rngZero (by decide)⟩

/-! ### Claim C1 (amended statement and witness) -/

/-- C1, amended: for every instance with `n ≥ 2` the classical and SA
route orders are permutations of the ids headed by the id of location 0;
successful QIEA and QAOA runs also return permutations of the ids, and
QAOA keeps the head, but the QIEA best route may come from the
generation-0 farthest-insertion construction, which can start away from
index 0, so its first element is not guaranteed (and the QIEA walk can
raise, see the zero-row-sum behaviour). -/
theorem c1_amended (env : Env) (inst : Inst) (s : RngS) (_hn : 2 ≤ inst.n) :
    ((optimize_classical inst s).1.route_order.Perm inst.ids ∧
      (optimize_classical inst s).1.route_order.head? = inst.ids.head?) ∧
    ((optimize_simulated_annealing env inst s).1.route_order.Perm inst.ids ∧
      (optimize_simulated_annealing env inst s).1.route_order.head? =
        inst.ids.head?) ∧
    (∀ r : RouteResult, (optimize_qiea env inst s).1 = .ok r →
      r.route_order.Perm inst.ids) ∧
    (∀ r : RouteResult, (optimize_qaoa env inst s).1 = .ok r →
      r.route_order.Perm inst.ids ∧ r.route_order.head? = inst.ids.head?) := by
  by_cases h2 : inst.n ≤ 2
  · obtain ⟨h1, hsa, hq, ha⟩ := n2_results env inst s h2
    refine ⟨⟨?_, ?_⟩, ⟨?_, ?_⟩, ?_, ?_⟩
    · rw [h1]
    · rw [h1]
    · rw [hsa]
    · rw [hsa]
    · intro r hr
      rw [hq] at hr
      cases hr
      exact List.Perm.refl _
    · intro r hr
      rw [ha] at hr
      cases hr
      exact ⟨List.Perm.refl _, rfl⟩
  · have hn3 : 3 ≤ inst.n := by omega
    refine ⟨?_, ?_, ?_, ?_⟩
    · obtain ⟨rt, h1, hp, hh, _, _, _⟩ := optimize_classical_ok inst s hn3
      rw [h1]
      exact ⟨route_ids_perm inst rt hp, route_ids_head inst rt (by omega) hh⟩
    · obtain ⟨rt, h1, hp, hh, _, _⟩ := optimize_simulated_annealing_ok env inst s hn3
      rw [h1]
      exact ⟨route_ids_perm inst rt hp, route_ids_head inst rt (by omega) hh⟩
    · intro r hr
      obtain ⟨rt, h1, hp, _, _, _⟩ := optimize_qiea_ok env inst s r hn3 hr
      rw [h1]
      exact route_ids_perm inst rt hp
    · intro r hr
      obtain ⟨rt, h1, hp, hh, _, _, _⟩ := optimize_qaoa_ok env inst s r hn3 hr
      rw [h1]
      exact ⟨route_ids_perm inst rt hp, route_ids_head inst rt (by omega) hh⟩

/-- C1, witness: the amended statement at the concrete 2-stop
instance. -/
theorem c1_witness :
    2 ≤ instB.n ∧
    (((optimize_classical instB rngZero).1.route_order.Perm instB.ids ∧
      (optimize_classical instB rngZero).1.route_order.head? = instB.ids.head?) ∧
    ((optimize_simulated_annealing envHalf instB rngZero).1.route_order.Perm
        instB.ids ∧
      (optimize_simulated_annealing envHalf instB rngZero).1.route_order.head? =
        instB.ids.head?) ∧
    (∀ r : RouteResult, (optimize_qiea envHalf instB rngZero).1 = .ok r →
      r.route_order.Perm instB.ids) ∧
    (∀ r : RouteResult, (optimize_qaoa envHalf instB rngZero).1 = .ok r →
      r.route_order.Perm instB.ids ∧
        r.route_order.head? = instB.ids.head?)) :=
  ⟨by decide, c1_amended envHalf instB rngZero (by decide)⟩

/-! ### Claim C7 -/

/-- C7, counterexample: at `n = 3` the SA neighbour generator never
executes a move — the candidate equals the current route for every
oracle — although swapping positions 1 and 2 (a move the claim says is
drawn with positive probability) would produce the distinct route
`[0, 2, 1]`. -/
theorem c7_counterexample :
    (fun s : RngS => (saNeighbor 3 [0, 1, 2] s).1) = (fun _ => [0, 1, 2]) ∧
    swapMove [0, 1, 2] 1 2 = [0, 2, 1] ∧ [0, 2, 1] ≠ [0, 1, 2] := by
  refine ⟨rfl, by decide, by decide⟩

/-- C7, amended: for `n ≥ 4` the SA candidate is exactly one move —
swap, insert, or reverse, selected by the draw modulo 3 — with indices in
`[1, n-1]`, the head (index 0) unchanged and the candidate a permutation
of the current route; for `n = 3` the generator is skipped and the
candidate equals the current route. -/
theorem c7_amended (n : Nat) (route : List Nat) (s : RngS)
    (hlen : route.length = n) (hn : 4 ≤ n) :
    ∃ i j, 1 ≤ i ∧ i ≤ n - 1 ∧ 1 ≤ j ∧ j ≤ n - 1 ∧
      (saNeighbor n route s).1.head? = route.head? ∧
      (saNeighbor n route s).1.Perm route ∧
      (((drawNat s).1 % 3 = 0 ∧ i ≠ j ∧
          (saNeighbor n route s).1 = swapMove route i j) ∨
       ((drawNat s).1 % 3 = 1 ∧
          (saNeighbor n route s).1 = insertMove route i j) ∨
       (2 ≤ (drawNat s).1 % 3 ∧ i < j ∧
          (saNeighbor n route s).1 = reverseSegment route i j)) := by
  have hph := saNeighbor_perm_head n route s hlen
  unfold saNeighbor at hph ⊢
  rw [if_pos (by omega : 3 < n)] at hph ⊢
  simp only [drawNat] at hph ⊢
  have hb := sampleTwo_bounds n ⟨s.rng, s.pos + 1⟩ (by omega)
  obtain ⟨hi1, hi2, hj1, hj2, hne⟩ := hb
  by_cases hd0 : s.rng.natAt s.pos % 3 = 0
  · rw [if_pos hd0] at hph ⊢
    exact ⟨_, _, hi1, hi2, hj1, hj2, hph.2, hph.1, Or.inl ⟨hd0, hne, rfl⟩⟩
  · rw [if_neg hd0] at hph ⊢
    by_cases hd1 : s.rng.natAt s.pos % 3 = 1
    · rw [if_pos hd1] at hph ⊢
      have hri := randint_mem 1 (n - 1) ⟨s.rng, s.pos + 1⟩ (by omega)
      have hrj := randint_mem 1 (n - 1)
        (randint 1 (n - 1) ⟨s.rng, s.pos + 1⟩).2 (by omega)
      exact ⟨_, _, hri.1, hri.2, hrj.1, hrj.2, hph.2, hph.1,
        Or.inr (Or.inl ⟨hd1, rfl⟩)⟩
    · rw [if_neg hd1] at hph ⊢
      refine ⟨min (sampleTwo n ⟨s.rng, s.pos + 1⟩).1
          (sampleTwo n ⟨s.rng, s.pos + 1⟩).2.1,
        max (sampleTwo n ⟨s.rng, s.pos + 1⟩).1
          (sampleTwo n ⟨s.rng, s.pos + 1⟩).2.1,
        by omega, by omega, by omega, by omega, hph.2, hph.1,
        Or.inr (Or.inr ⟨by omega, by omega, rfl⟩)⟩

/-- C7, witness: the amended statement at a concrete 4-city route. -/
theorem c7_witness :
    ([0, 1, 2, 3] : List Nat).length = 4 ∧ 4 ≤ 4 ∧
    (∃ i j, 1 ≤ i ∧ i ≤ 4 - 1 ∧ 1 ≤ j ∧ j ≤ 4 - 1 ∧
      (saNeighbor 4 [0, 1, 2, 3] rngZero).1.head? = ([0, 1, 2, 3] : List Nat).head? ∧
      (saNeighbor 4 [0, 1, 2, 3] rngZero).1.Perm [0, 1, 2, 3] ∧
      (((drawNat rngZero).1 % 3 = 0 ∧ i ≠ j ∧
          (saNeighbor 4 [0, 1, 2, 3] rngZero).1 = swapMove [0, 1, 2, 3] i j) ∨
       ((drawNat rngZero).1 % 3 = 1 ∧
          (saNeighbor 4 [0, 1, 2, 3] rngZero).1 = insertMove [0, 1, 2, 3] i j) ∨
       (2 ≤ (drawNat rngZero).1 % 3 ∧ i < j ∧
          (saNeighbor 4 [0, 1, 2, 3] rngZero).1 =
            reverseSegment [0, 1, 2, 3] i j))) :=
  ⟨by decide, by decide, c7_amended 4 [0, 1, 2, 3] rngZero (by decide) (by decide)⟩

/-! ### Claim C8 -/

/-- C8, counterexample: on an all-zero quantum state the walk divides by
a zero restricted row sum and raises (modelled as `none`) instead of
falling back to a uniform pick — no complete route is produced. -/
theorem c8_counterexample :
    (quantum_to_classical_route [[0, 0, 0], [0, 0, 0], [0, 0, 0]] rngZero).1 =
      none := by
  norm_num [quantum_to_classical_route, qWalkAux, qGet, List.range']

/-- C8, amended: the walk of `_quantum_to_classical_route` has no
zero-row-sum guard (unlike the QAOA sampler); it is total when the
restricted rows it encounters have positive sums — in particular for
strictly positive off-diagonal entries — and then returns a complete
route: a permutation of `range n` starting at index 0. -/
theorem c8_amended (q : QMat) (s : RngS) (hn : 1 ≤ q.length)
    (hq : ∀ i j, i < q.length → 1 ≤ j → j < q.length → 0 < qGet q i j) :
    ∃ r, (quantum_to_classical_route q s).1 = some r ∧
      r.Perm (List.range q.length) ∧ r.head? = some 0 := by
  obtain ⟨r, hr⟩ := quantum_to_classical_route_total q s hq hn
  obtain ⟨hperm, hhead⟩ := quantum_to_classical_route_perm q s r hn hr
  exact ⟨r, hr, hperm, hhead⟩

/-- C8, witness: the amended statement at a concrete positive 2×2
state. -/
theorem c8_witness :
    1 ≤ ([[1, 1], [1, 1]] : QMat).length ∧
    ∃ r, (quantum_to_classical_route [[1, 1], [1, 1]] rngZero).1 = some r ∧
      r.Perm (List.range ([[1, 1], [1, 1]] : QMat).length) ∧
      r.head? = some 0 :=
  ⟨by decide, c8_amended [[1, 1], [1, 1]] rngZero (by decide) (by
    intro i j hi hj1 hj2
    simp only [List.length_cons, List.length_nil] at hi hj2
    interval_cases i <;> interval_cases j <;> decide)⟩

/-! ### Claim C6 -/

/-- A constant-increment fold adds the length times the increment. -/
theorem foldl_const_add (c : ℚ) (l : List Nat) :
    ∀ a : ℚ, l.foldl (fun acc _ => acc + c) a = a + l.length * c := by
  induction l with
  | nil => intro a; simp
  | cons x xs ih =>
    intro a
    simp only [List.foldl_cons, ih, List.length_cons]
    push_cast
    ring

/-- The QIEA objective as the spec words it: the diversity bonus sums
over the odd indices `i ∈ range(1, len(route)-1)` (the code uses the
even ones).  This definition follows the spec text and exists only to be
compared with `qiea_objective`, which follows the source. -/
def qiea_objective_spec (inst : Inst) (r : List Nat) : ℚ :=
  let distance := calculate_route_distance inst r
  let time := route_time inst r
  let diversityBonus :=
    ((List.range' 1 (r.length - 2)).filter (fun i => i % 2 = 1)).foldl
      (fun acc _ => acc + 0.05 * distance / (inst.n : ℚ)) 0
  0.5 * distance + 0.3 * time + 0.2 * diversityBonus

/-- C6, counterexample: on a 5-stop instance with unit distances and the
route `[0,1,2,3,4]`, the code's objective (bonus over even indices,
i.e. over `{2}`) is `401/125`, while the spec's formula (bonus over odd
indices, i.e. over `{1,3}`) gives `402/125` — the two disagree. -/
theorem c6_counterexample :
    qiea_objective inst5 [0, 1, 2, 3, 4] = 401 / 125 ∧
    qiea_objective_spec inst5 [0, 1, 2, 3, 4] = 402 / 125 ∧
    qiea_objective inst5 [0, 1, 2, 3, 4] ≠
      qiea_objective_spec inst5 [0, 1, 2, 3, 4] := by
  refine ⟨?_, ?_, ?_⟩ <;>
    norm_num [qiea_objective, qiea_objective_spec, calculate_route_distance,
      route_time, pairSum, inst5, Inst.n, List.range']

/-- C6, amended: the QIEA objective is
`0.5·distance + 0.3·time + 0.2·bonus` where the bonus adds
`0.05·distance/n` once for every EVEN index `i ∈ range(1, len(r)-1)`
(the spec says odd); re-evaluating the reported `objective_value` of a
successful QIEA run from the returned route with the code's formula
reproduces the reported value. -/
theorem c6_amended (inst : Inst) (r : List Nat) (_hr : 2 ≤ r.length) :
    (qiea_objective inst r =
      0.5 * calculate_route_distance inst r + 0.3 * route_time inst r +
        0.2 * (((((List.range' 1 (r.length - 2)).filter fun i => i % 2 = 0)).length : ℚ) *
          (0.05 * calculate_route_distance inst r / (inst.n : ℚ)))) ∧
    (∀ (env : Env) (s : RngS) (res : RouteResult), 3 ≤ inst.n →
      (optimize_qiea env inst s).1 = .ok res →
      ∃ rt : List Nat, res.route_order = rt.map inst.idAt ∧
        res.objective_value = qiea_objective inst rt) := by
  constructor
  · simp only [qiea_objective]
    rw [foldl_const_add, zero_add]
  · intro env s res hn h
    obtain ⟨rt, h1, _, _, _, h5⟩ := optimize_qiea_ok env inst s res hn h
    exact ⟨rt, h1, h5⟩

/-- C6, witness: the amended statement at the concrete 5-stop instance
and route `[0,1,2,3,4]`. -/
theorem c6_witness :
    2 ≤ ([0, 1, 2, 3, 4] : List Nat).length ∧
    ((qiea_objective inst5 [0, 1, 2, 3, 4] =
      0.5 * calculate_route_distance inst5 [0, 1, 2, 3, 4] +
        0.3 * route_time inst5 [0, 1, 2, 3, 4] +
        0.2 * (((((List.range' 1 (([0, 1, 2, 3, 4] : List Nat).length - 2)).filter
            fun i => i % 2 = 0)).length : ℚ) *
          (0.05 * calculate_route_distance inst5 [0, 1, 2, 3, 4] / (inst5.n : ℚ)))) ∧
    (∀ (env : Env) (s : RngS) (res : RouteResult), 3 ≤ inst5.n →
      (optimize_qiea env inst5 s).1 = .ok res →
      ∃ rt : List Nat, res.route_order = rt.map inst5.idAt ∧
        res.objective_value = qiea_objective inst5 rt)) :=
  ⟨by decide, c6_amended inst5 [0, 1, 2, 3, 4] (by decide)⟩

/-! ### Claim C4 -/

/-- C4, confirmed: with a fixed `random_seed` the engine's response is a
function of the request alone — two runs over different ambient oracle
streams and different wall-clock timestamps agree on everything except
the timestamp field (in particular on `algorithmResults`, hence on every
algorithm's `route_order`, `objective_value` and `iterations_log`). -/
theorem c4_confirmed (env : Env) (hav : ℚ × ℚ → ℚ × ℚ → ℚ) (prov : Provider)
    (stops : List Location) (depot : Option (ℚ × ℚ))
    (algs : Option (List String)) (sd : Nat) (amb₁ amb₂ : Rng) (t₁ t₂ : String) :
    (optimize_routes env hav prov stops depot algs (some sd) amb₁ t₁).map
        (fun resp => (resp.algorithmResults, resp.distanceMatrixSource,
          resp.debugWarnings, resp.debugErrors, resp.matrixSize, resp.totalStops)) =
      (optimize_routes env hav prov stops depot algs (some sd) amb₂ t₂).map
        (fun resp => (resp.algorithmResults, resp.distanceMatrixSource,
          resp.debugWarnings, resp.debugErrors, resp.matrixSize, resp.totalStops)) := by
  unfold optimize_routes
  by_cases h : stops.length < 2
  · rw [if_pos h, if_pos h]
  · rw [if_neg h, if_neg h]
    rfl

/-! ### Claim C10 -/

/-- C10, confirmed: the classical optimizer consumes no randomness — its
result is the same for any two oracle states, the state it returns is
exactly the one it was given, and the recorded seed is the literal 0
(independently of any request seed, which the engine never passes to
it). -/
theorem c10_confirmed (inst : Inst) (s₁ s₂ : RngS) :
    (optimize_classical inst s₁).1 = (optimize_classical inst s₂).1 ∧
    (optimize_classical inst s₁).2 = s₁ ∧
    (optimize_classical inst s₁).1.seed = 0 ∧
    (∀ (env : Env) (prov : Provider) (rs : Option Nat),
      (runOne env inst prov rs "classical" s₁).1 =
        some (.ok (attachPoly prov (optimize_classical inst s₁).1))) := by
  refine ⟨?_, ?_, ?_, ?_⟩
  · by_cases h : inst.n ≤ 2 <;> simp [optimize_classical, h]
  · by_cases h : inst.n ≤ 2 <;> simp [optimize_classical, h]
  · by_cases h : inst.n ≤ 2 <;> simp [optimize_classical, h]
  · intro env prov rs
    simp [runOne]

/-! ### Claim C9 -/

/-- Reading a mapped range at an in-range index. -/
theorem getD_map_range {α : Type} (f : Nat → α) (n i : Nat) (hi : i < n) (d : α) :
    (((List.range n).map f).getD i d) = f i := by
  rw [List.getD_eq_getElem _ _ (by simpa using hi)]
  simp

/-- A provider in total outage: the batch call fails, every individual
Directions call fails, and the full-route polyline call fails. -/
def prov0 : Provider := ⟨none, fun _ _ => none, fun _ => none⟩

/-- Two concrete stops. -/
def stops2 : List Location := [⟨"A", 0, 0⟩, ⟨"B", 1, 1⟩]

/-- C9, counterexample: with the provider in total outage, the engine
still answers, but the response's `distanceMatrixSource` is the literal
`"Google Maps Directions API"` — never `"haversine-fallback"` — and
`debug.warnings` is the hard-coded empty list. -/
theorem c9_counterexample :
    prov0.batch = none ∧ (∀ a b, prov0.pair a b = none) ∧
    ∃ resp, optimize_routes envHalf (fun _ _ => 1) prov0 stops2 none
        (some ["classical"]) none zeroRng "" = .ok resp ∧
      resp.distanceMatrixSource = "Google Maps Directions API" ∧
      resp.distanceMatrixSource ≠ "haversine-fallback" ∧
      resp.debugWarnings = [] := by
  refine ⟨rfl, fun _ _ => rfl, _, rfl, rfl, by decide, rfl⟩

/-- On the main path the engine returns a response whose non-result
fields are read off directly. -/
theorem optimize_routes_okAux (env : Env) (hav : ℚ × ℚ → ℚ × ℚ → ℚ)
    (prov : Provider) (stops : List Location) (depot : Option (ℚ × ℚ))
    (algs : Option (List String)) (rs : Option Nat) (amb : Rng) (ts : String)
    (hn : ¬ stops.length < 2) :
    ∃ results : List (String × AlgEntry),
      optimize_routes env hav prov stops depot algs rs amb ts =
        .ok { algorithmResults := results
              distanceMatrixSource := (get_route_matrix hav prov
                (match depot with
                 | some d => ⟨"depot", d.1, d.2⟩ :: stops
                 | none => stops)).source
              timestamp := ts
              apiVersion := "v1"
              debugWarnings := []
              debugErrors := []
              matrixSize := (match depot with
                 | some d => (⟨"depot", d.1, d.2⟩ : Location) :: stops
                 | none => stops).length
              totalStops := stops.length } := by
  unfold optimize_routes
  rw [if_neg hn]
  exact ⟨_, rfl⟩

/-- C9, amended: when the upstream provider fails on every call, the
engine still returns a response whose matrices are the Haversine
fallback (distance `hav`, time `hav * 1.2`, zero diagonal), but the
matrix source label stays `"Google Maps Directions API"` (the
`"haversine-fallback"` label of the spec is never produced on this path)
and `debug.warnings` is the hard-coded empty list. -/
theorem c9_amended (env : Env) (hav : ℚ × ℚ → ℚ × ℚ → ℚ) (prov : Provider)
    (stops locs : List Location) (depot : Option (ℚ × ℚ))
    (algs : Option (List String)) (rs : Option Nat) (amb : Rng) (ts : String)
    (hb : prov.batch = none) (hp : ∀ a b, prov.pair a b = none)
    (hn : 2 ≤ stops.length) :
    (get_route_matrix hav prov locs).source = "Google Maps Directions API" ∧
    (∀ i j, i < locs.length → j < locs.length →
      (((get_route_matrix hav prov locs).distanceMatrix.getD i []).getD j 0) =
        (if i = j then 0 else
          hav ((locs.getD i ⟨"", 0, 0⟩).lat, (locs.getD i ⟨"", 0, 0⟩).lng)
            ((locs.getD j ⟨"", 0, 0⟩).lat, (locs.getD j ⟨"", 0, 0⟩).lng)) ∧
      (((get_route_matrix hav prov locs).timeMatrix.getD i []).getD j 0) =
        (if i = j then 0 else
          hav ((locs.getD i ⟨"", 0, 0⟩).lat, (locs.getD i ⟨"", 0, 0⟩).lng)
            ((locs.getD j ⟨"", 0, 0⟩).lat, (locs.getD j ⟨"", 0, 0⟩).lng) * 1.2)) ∧
    (∃ resp, optimize_routes env hav prov stops depot algs rs amb ts = .ok resp ∧
      resp.distanceMatrixSource = "Google Maps Directions API" ∧
      resp.distanceMatrixSource ≠ "haversine-fallback" ∧
      resp.debugWarnings = []) := by
  refine ⟨?_, ?_, ?_⟩
  · unfold get_route_matrix
    rw [hb]
  · intro i j hi hj
    unfold get_route_matrix
    rw [hb]
    dsimp only
    rw [getD_map_range _ _ _ hi, getD_map_range _ _ _ hj,
      getD_map_range _ _ _ hi, getD_map_range _ _ _ hj, hp]
    exact ⟨rfl, rfl⟩
  · have hsrc : ∀ ls : List Location,
        (get_route_matrix hav prov ls).source = "Google Maps Directions API" := by
      intro ls
      unfold get_route_matrix
      rw [hb]
    obtain ⟨results, hok⟩ :=
      optimize_routes_okAux env hav prov stops depot algs rs amb ts
        (by omega : ¬ stops.length < 2)
    refine ⟨_, hok, hsrc _, ?_, rfl⟩
    rw [hsrc _]
    show ("Google Maps Directions API" : String) ≠ "haversine-fallback"
    decide

/-- A constant unit Haversine fallback. -/
def hav1 : ℚ × ℚ → ℚ × ℚ → ℚ := fun _ _ => 1

/-- C9, witness: the amended statement at a concrete outage provider and
2-stop request. -/
theorem c9_witness :
    prov0.batch = none ∧ (∀ a b, prov0.pair a b = none) ∧ 2 ≤ stops2.length ∧
    ((get_route_matrix hav1 prov0 stops2).source = "Google Maps Directions API" ∧
    (∀ i j, i < stops2.length → j < stops2.length →
      (((get_route_matrix hav1 prov0 stops2).distanceMatrix.getD i []).getD j 0) =
        (if i = j then 0 else
          hav1 ((stops2.getD i ⟨"", 0, 0⟩).lat, (stops2.getD i ⟨"", 0, 0⟩).lng)
            ((stops2.getD j ⟨"", 0, 0⟩).lat, (stops2.getD j ⟨"", 0, 0⟩).lng)) ∧
      (((get_route_matrix hav1 prov0 stops2).timeMatrix.getD i []).getD j 0) =
        (if i = j then 0 else
          hav1 ((stops2.getD i ⟨"", 0, 0⟩).lat, (stops2.getD i ⟨"", 0, 0⟩).lng)
            ((stops2.getD j ⟨"", 0, 0⟩).lat, (stops2.getD j ⟨"", 0, 0⟩).lng) * 1.2)) ∧
    (∃ resp, optimize_routes envHalf hav1 prov0 stops2 none (some ["classical"])
        none zeroRng "" = .ok resp ∧
      resp.distanceMatrixSource = "Google Maps Directions API" ∧
      resp.distanceMatrixSource ≠ "haversine-fallback" ∧
      resp.debugWarnings = [])) :=
  ⟨rfl, fun _ _ => rfl, by decide,
    c9_amended envHalf hav1 prov0 stops2 stops2 none (some ["classical"]) none
      zeroRng "" rfl (fun _ _ => rfl) (by decide)⟩

/-! ### Claim C1 (counterexample development) -/

/-- A permutation of a two-element list is one of its two arrangements. -/
theorem perm_pair_eq (t : List Nat) (a b : Nat) (h : t.Perm [a, b]) :
    t = [a, b] ∨ t = [b, a] := by
  have hlen : t.length = 2 := by simpa using h.length_eq
  rcases t with _ | ⟨x, t⟩
  · simp at hlen
  rcases t with _ | ⟨y, t⟩
  · simp at hlen
  rcases t with _ | ⟨z, t⟩
  · have hx : x ∈ [a, b] := h.subset (by simp)
    simp only [List.mem_cons, List.not_mem_nil, or_false] at hx
    rcases hx with hx | hx
    · subst hx
      left
      rw [List.perm_singleton.mp h.cons_inv]
    · subst hx
      have h' : ([x, y] : List Nat).Perm [x, a] := h.trans (List.Perm.swap x a [])
      right
      rw [List.perm_singleton.mp h'.cons_inv]
  · simp at hlen

/-- A successful walk over a `3 × 3` matrix returns one of the two tours
from index 0. -/
theorem walk3_routes (q : QMat) (s : RngS) (r : List Nat) (h3 : q.length = 3)
    (h : (quantum_to_classical_route q s).1 = some r) :
    r = [0, 1, 2] ∨ r = [0, 2, 1] := by
  obtain ⟨hperm, hhead⟩ := quantum_to_classical_route_perm q s r (by omega) h
  rw [h3] at hperm
  rcases r with _ | ⟨x, t⟩
  · cases hhead
  · have hx : x = 0 := by simpa using hhead
    subst hx
    have hperm' : t.Perm [1, 2] := by
      rw [show List.range 3 = [0, 1, 2] from rfl] at hperm
      exact hperm.cons_inv
    rcases perm_pair_eq t 1 2 hperm' with h' | h'
    · left; rw [h']
    · right; rw [h']

/-- Both nearest-neighbour constructions on `instC` give the identity
tour. -/
theorem nearestT_instC : nearest_route instC.T 3 = [0, 1, 2] := by decide

/-- Both nearest-neighbour constructions on `instC` give the identity
tour. -/
theorem nearestD_instC : nearest_route instC.D 3 = [0, 1, 2] := by decide

/-- The farthest-insertion construction on `instC` starts from the
maximal pair `(1, 2)` and produces a tour that does not start at
index 0. -/
theorem farthest_instC :
    construct_farthest_insertion_route instC.D 3 = [1, 0, 2] := by
  have h2 : bestInsertPos DC [1, 2] 0 = 1 := by
    norm_num [bestInsertPos, insertCost, DC, List.range']
  show farthestInsertLoop DC 1 [0] [1, 2] = [1, 0, 2]
  unfold farthestInsertLoop
  dsimp only
  rw [show argmaxBy (fun x => minOver (fun y => DC x y) [1, 2]) [0] = 0 from rfl, h2]
  rfl

/-- The generation-0 construction methods on `instC`: identity tour for
methods 0–2, `[1, 0, 2]` for the farthest-insertion method. -/
theorem construct_instC (k : Nat) (s : RngS) :
    (construct_route_with_method instC (k % 4) instC.n s).1 =
      (if k % 4 = 3 then [1, 0, 2] else [0, 1, 2]) := by
  have h4 : k % 4 < 4 := Nat.mod_lt _ (by norm_num)
  unfold construct_route_with_method
  rcases h : k % 4 with _ | _ | _ | _ | m
  · rfl
  · exact nearestT_instC
  · exact nearestD_instC
  · exact farthest_instC
  · omega

/-- Route materialization on `instC` in generation 0. -/
theorem qieaMaterialize_instC (k : Nat) (q : QMat) (s : RngS) :
    (qieaMaterialize instC 0 k q s).1 =
      some (if k % 4 = 3 then [1, 0, 2] else [0, 1, 2]) := by
  unfold qieaMaterialize
  rw [if_pos rfl]
  dsimp only
  rw [construct_instC k s]

/-- The construction methods only skip oracle draws: the stream is
unchanged. -/
theorem construct_route_with_method_rng (inst : Inst) (m n : Nat) (s : RngS) :
    ((construct_route_with_method inst m n s).2).rng = s.rng := by
  unfold construct_route_with_method
  split_ifs <;> rfl

/-- The quantum walk advances the draw position but never switches
streams. -/
theorem qWalkAux_rng (q : QMat) :
    ∀ (fuel cur : Nat) (pool : List Nat) (s : RngS),
      ((qWalkAux q fuel cur pool s).2).rng = s.rng := by
  intro fuel
  induction fuel with
  | zero => intro cur pool s; rfl
  | succ f ih =>
    intro cur pool s
    rcases pool with _ | ⟨a, rest⟩
    · rfl
    · unfold qWalkAux
      dsimp only
      by_cases hw : 0 < ((a :: rest).map fun j => qGet q cur j).sum
      · rw [if_pos hw]
        rcases hres : (qWalkAux q f
            ((a :: rest).getD ((drawNat s).1 % (a :: rest).length) 0)
            ((a :: rest).erase
              ((a :: rest).getD ((drawNat s).1 % (a :: rest).length) 0))
            (drawNat s).2).1 with _ | r
        · exact ih _ _ _
        · exact ih _ _ _
      · rw [if_neg hw]

/-- `_quantum_to_classical_route` never switches streams. -/
theorem quantum_to_classical_route_rng (q : QMat) (s : RngS) :
    ((quantum_to_classical_route q s).2).rng = s.rng := by
  unfold quantum_to_classical_route
  dsimp only
  rcases hres : (qWalkAux q (List.range' 1 (q.length - 1)).length 0
      (List.range' 1 (q.length - 1)) s).1 with _ | r <;>
    exact qWalkAux_rng q _ _ _ _

/-- Route materialization never switches streams. -/
theorem qieaMaterialize_rng (inst : Inst) (gen k : Nat) (q : QMat) (s : RngS) :
    ((qieaMaterialize inst gen k q s).2).rng = s.rng := by
  unfold qieaMaterialize
  by_cases h : gen = 0
  · rw [if_pos h]
    exact construct_route_with_method_rng inst (k % 4) inst.n s
  · rw [if_neg h]
    exact quantum_to_classical_route_rng q s

/-- Population invariant of the C1 run: `3 × 3` matrices with all entries
in `[1/2, 1]`. -/
def QOK3 (q : QMat) : Prop :=
  q.length = 3 ∧ ∀ row ∈ q, row.length = 3 ∧ ∀ x ∈ row, 1/2 ≤ x ∧ x ≤ 1

/-- A `QOK3` matrix has positive off-diagonal weights, so the quantum
walk over it is total. -/
theorem qok3_pos (q : QMat) (h : QOK3 q) :
    ∀ i j, i < q.length → 1 ≤ j → j < q.length → 0 < qGet q i j := by
  intro i j hi _ hj
  obtain ⟨h3, hrows⟩ := h
  have hrow : q.getD i [] ∈ q := by
    rw [List.getD_eq_getElem _ _ hi]
    exact List.getElem_mem hi
  obtain ⟨hlen, hbnd⟩ := hrows _ hrow
  have hjr : j < (q.getD i []).length := by omega
  have hmem : (q.getD i []).getD j 0 ∈ q.getD i [] := by
    rw [List.getD_eq_getElem _ _ hjr]
    exact List.getElem_mem hjr
  have hb := (hbnd _ hmem).1
  unfold qGet
  linarith

/-- One rotation write keeps the entries in `[1/2, 1]`: the written value
is `min 1 (x + 0.1)` for an in-range entry `x ≥ 1/2`, and out-of-range
writes are no-ops. -/
theorem qset_rot_qok3 (q : QMat) (a b : Nat) (h : QOK3 q) :
    QOK3 (qSet q a b (min 1 (qGet q a b + 0.1))) := by
  obtain ⟨h3, hrows⟩ := h
  constructor
  · rw [qSet_length]
    exact h3
  · intro row hrow
    unfold qSet at hrow
    by_cases ha : a < q.length
    · rcases List.mem_or_eq_of_mem_set hrow with hrow' | hrow'
      · exact hrows row hrow'
      · subst hrow'
        have hrowa : q.getD a [] ∈ q := by
          rw [List.getD_eq_getElem _ _ ha]
          exact List.getElem_mem ha
        obtain ⟨hlen, hbnd⟩ := hrows _ hrowa
        constructor
        · rw [List.length_set]
          exact hlen
        · intro x hx
          by_cases hb : b < (q.getD a []).length
          · rcases List.mem_or_eq_of_mem_set hx with hx' | hx'
            · exact hbnd x hx'
            · subst hx'
              have hvmem : (q.getD a []).getD b 0 ∈ q.getD a [] := by
                rw [List.getD_eq_getElem _ _ hb]
                exact List.getElem_mem hb
              obtain ⟨hv1, hv2⟩ := hbnd _ hvmem
              unfold qGet
              refine ⟨le_min (by norm_num) (by linarith), min_le_left _ _⟩
          · rw [List.set_eq_of_length_le (by omega)] at hx
            exact hbnd x hx
    · rw [List.set_eq_of_length_le (by omega)] at hrow
      exact hrows row hrow

/-- A full rotation update keeps `QOK3`. -/
theorem quantum_rotation_update_qok3 (q : QMat) (target : List Nat)
    (h : QOK3 q) : QOK3 (quantum_rotation_update q target) := by
  unfold quantum_rotation_update
  generalize consecPairs target = ps
  induction ps generalizing q with
  | nil => simpa using h
  | cons p ps ih =>
    simp only [List.foldl_cons]
    exact ih _ (qset_rot_qok3 q p.1 p.2 h)

/-- A fold of rotation updates keeps `QOK3`. -/
theorem rot_foldl_qok3 (ch : List (List Nat × ℚ)) :
    ∀ q : QMat, QOK3 q →
      QOK3 (ch.foldl (fun q rc => quantum_rotation_update q rc.1) q) := by
  induction ch with
  | nil => intro q h; simpa using h
  | cons c cs ih =>
    intro q h
    simp only [List.foldl_cons]
    exact ih _ (quantum_rotation_update_qok3 q c.1 h)

/-- Under the constant-half stream every unit draw is `1/2`. -/
theorem drawUnit_half (s : RngS) (hs : s.rng = halfRng) :
    (drawUnit s).1 = 1/2 ∧ ((drawUnit s).2).rng = halfRng := by
  constructor
  · show clamp01 (s.rng.ratAt s.pos) = 1/2
    rw [hs]
    norm_num [clamp01, halfRng]
  · exact hs

/-- Under the constant-half stream the mutation gate never fires, so the
update loop keeps `QOK3` and the half stream. -/
theorem qieaUpdateLoop_c1 (elites : List (List Nat × ℚ)) :
    ∀ (pop : List QMat) (k : Nat) (s : RngS), s.rng = halfRng →
      (∀ q ∈ pop, QOK3 q) →
      (∀ q' ∈ (qieaUpdateLoop elites pop k s).1, QOK3 q') ∧
      ((qieaUpdateLoop elites pop k s).2).rng = halfRng := by
  intro pop
  induction pop with
  | nil =>
    intro k s hs _
    refine ⟨?_, hs⟩
    intro q' hq'
    rw [show (qieaUpdateLoop elites [] k s).1 = [] from rfl] at hq'
    cases hq'
  | cons q rest ih =>
    intro k s hs hpop
    obtain ⟨hu, hs1⟩ := drawUnit_half s hs
    have hnot : ¬ ((drawUnit s).1 < 0.15) := by
      rw [hu]; norm_num
    obtain ⟨ihg, ihr⟩ := ih (k + 1) (drawUnit s).2 hs1
      (fun q' hq' => hpop q' (List.mem_cons_of_mem _ hq'))
    unfold qieaUpdateLoop
    dsimp only
    rw [if_neg hnot, if_neg hnot]
    constructor
    · intro q' hq'
      rcases List.mem_cons.mp hq' with h' | h'
      · rw [h']
        exact rot_foldl_qok3 _ q (hpop q (by simp))
      · exact ihg q' h'
    · exact ihr

/-- The concrete objective comparisons on `instC`: the farthest-insertion
tour `[1, 0, 2]` beats both tours that start at index 0. -/
theorem instC_obj_facts :
    qiea_objective instC [1, 0, 2] < qiea_objective instC [0, 1, 2] ∧
    ¬ (qiea_objective instC [0, 1, 2] < qiea_objective instC [1, 0, 2]) ∧
    ¬ (qiea_objective instC [0, 2, 1] < qiea_objective instC [1, 0, 2]) ∧
    ¬ (qiea_objective instC [1, 0, 2] < qiea_objective instC [1, 0, 2]) := by
  refine ⟨?_, ?_, ?_, ?_⟩ <;>
    norm_num [qiea_objective, calculate_route_distance, route_time, pairSum,
      instC, Inst.n, DC, List.range']

/-- Once the incumbent best is the farthest-insertion tour, the rest of
the generation-0 evaluation loop keeps it (both candidate tours do not
improve on it). -/
theorem qieaEvalLoop_gen0_abs :
    ∀ (pop : List QMat) (k : Nat) (sols : List (List Nat × ℚ)) (s : RngS),
      ∃ sols' s',
        qieaEvalLoop instC 0 pop k
            (some ([1, 0, 2], qiea_objective instC [1, 0, 2])) sols s =
          (some (sols', some ([1, 0, 2], qiea_objective instC [1, 0, 2])), s') ∧
        s'.rng = s.rng := by
  intro pop
  induction pop with
  | nil => intro k sols s; exact ⟨sols, s, rfl, rfl⟩
  | cons q rest ih =>
    intro k sols s
    unfold qieaEvalLoop
    dsimp only
    rw [qieaMaterialize_instC k q s]
    dsimp only
    by_cases hk : k % 4 = 3
    · rw [if_pos hk]
      have hub : updateBest (some ([1, 0, 2], qiea_objective instC [1, 0, 2]))
          ([1, 0, 2], qiea_objective instC [1, 0, 2]) =
          some ([1, 0, 2], qiea_objective instC [1, 0, 2]) := by
        unfold updateBest
        dsimp only
        rw [if_neg instC_obj_facts.2.2.2]
      rw [hub]
      obtain ⟨sols', s', heq, hrng⟩ := ih (k + 1)
        (sols ++ [([1, 0, 2], qiea_objective instC [1, 0, 2])])
        ((qieaMaterialize instC 0 k q s).2)
      exact ⟨sols', s', heq, hrng.trans (qieaMaterialize_rng instC 0 k q s)⟩
    · rw [if_neg hk]
      have hub : updateBest (some ([1, 0, 2], qiea_objective instC [1, 0, 2]))
          ([0, 1, 2], qiea_objective instC [0, 1, 2]) =
          some ([1, 0, 2], qiea_objective instC [1, 0, 2]) := by
        unfold updateBest
        dsimp only
        rw [if_neg instC_obj_facts.2.1]
      rw [hub]
      obtain ⟨sols', s', heq, hrng⟩ := ih (k + 1)
        (sols ++ [([0, 1, 2], qiea_objective instC [0, 1, 2])])
        ((qieaMaterialize instC 0 k q s).2)
      exact ⟨sols', s', heq, hrng.trans (qieaMaterialize_rng instC 0 k q s)⟩

/-- If the generation-0 evaluation loop still has to process an index
`≡ 3 (mod 4)`, it ends with the farthest-insertion tour as best. -/
theorem qieaEvalLoop_gen0_hit :
    ∀ (pop : List QMat) (k : Nat) (best : Option (List Nat × ℚ))
      (sols : List (List Nat × ℚ)) (s : RngS),
      (best = none ∨
        best = some ([0, 1, 2], qiea_objective instC [0, 1, 2]) ∨
        best = some ([1, 0, 2], qiea_objective instC [1, 0, 2])) →
      (∃ m, m < pop.length ∧ (k + m) % 4 = 3) →
      ∃ sols' s',
        qieaEvalLoop instC 0 pop k best sols s =
          (some (sols', some ([1, 0, 2], qiea_objective instC [1, 0, 2])), s') ∧
        s'.rng = s.rng := by
  intro pop
  induction pop with
  | nil =>
    intro k best sols s _ hm
    obtain ⟨m, hm1, _⟩ := hm
    simp at hm1
  | cons q rest ih =>
    intro k best sols s hS hm
    obtain ⟨m, hm1, hm4⟩ := hm
    unfold qieaEvalLoop
    dsimp only
    rw [qieaMaterialize_instC k q s]
    dsimp only
    by_cases hk : k % 4 = 3
    · rw [if_pos hk]
      have hub : updateBest best ([1, 0, 2], qiea_objective instC [1, 0, 2]) =
          some ([1, 0, 2], qiea_objective instC [1, 0, 2]) := by
        rcases hS with h | h | h
        · rw [h]; rfl
        · rw [h]
          unfold updateBest
          dsimp only
          rw [if_pos instC_obj_facts.1]
        · rw [h]
          unfold updateBest
          dsimp only
          rw [if_neg instC_obj_facts.2.2.2]
      rw [hub]
      obtain ⟨sols', s', heq, hrng⟩ := qieaEvalLoop_gen0_abs rest (k + 1)
        (sols ++ [([1, 0, 2], qiea_objective instC [1, 0, 2])])
        ((qieaMaterialize instC 0 k q s).2)
      exact ⟨sols', s', heq, hrng.trans (qieaMaterialize_rng instC 0 k q s)⟩
    · rw [if_neg hk]
      have hS' : updateBest best ([0, 1, 2], qiea_objective instC [0, 1, 2]) = none ∨
          updateBest best ([0, 1, 2], qiea_objective instC [0, 1, 2]) =
            some ([0, 1, 2], qiea_objective instC [0, 1, 2]) ∨
          updateBest best ([0, 1, 2], qiea_objective instC [0, 1, 2]) =
            some ([1, 0, 2], qiea_objective instC [1, 0, 2]) := by
        rcases hS with h | h | h
        · rw [h]; right; left; rfl
        · rw [h]
          right; left
          unfold updateBest
          dsimp only
          rw [if_neg (lt_irrefl _)]
        · rw [h]
          right; right
          unfold updateBest
          dsimp only
          rw [if_neg instC_obj_facts.2.1]
      obtain ⟨sols', s', heq, hrng⟩ := ih (k + 1)
        (updateBest best ([0, 1, 2], qiea_objective instC [0, 1, 2]))
        (sols ++ [([0, 1, 2], qiea_objective instC [0, 1, 2])])
        ((qieaMaterialize instC 0 k q s).2) hS'
        ⟨m - 1, by simp only [List.length_cons] at hm1; omega, by omega⟩
      exact ⟨sols', s', heq, hrng.trans (qieaMaterialize_rng instC 0 k q s)⟩

/-- In generations `≥ 1` over a `QOK3` population, every walk succeeds
with a tour starting at 0, so the farthest-insertion best survives the
whole evaluation loop. -/
theorem qieaEvalLoop_walk (gen : Nat) (hg : ¬ gen = 0) :
    ∀ (pop : List QMat) (k : Nat) (sols : List (List Nat × ℚ)) (s : RngS),
      (∀ q ∈ pop, QOK3 q) →
      ∃ sols' s',
        qieaEvalLoop instC gen pop k
            (some ([1, 0, 2], qiea_objective instC [1, 0, 2])) sols s =
          (some (sols', some ([1, 0, 2], qiea_objective instC [1, 0, 2])), s') ∧
        s'.rng = s.rng := by
  intro pop
  induction pop with
  | nil => intro k sols s _; exact ⟨sols, s, rfl, rfl⟩
  | cons q rest ih =>
    intro k sols s hpop
    have hq := hpop q (by simp)
    obtain ⟨r, hr⟩ := quantum_to_classical_route_total q s (qok3_pos q hq)
      (by rw [hq.1]; omega)
    have hmat : (qieaMaterialize instC gen k q s).1 = some r := by
      unfold qieaMaterialize
      rw [if_neg hg]
      exact hr
    unfold qieaEvalLoop
    dsimp only
    rw [hmat]
    dsimp only
    have hub : updateBest (some ([1, 0, 2], qiea_objective instC [1, 0, 2]))
        (r, qiea_objective instC r) =
        some ([1, 0, 2], qiea_objective instC [1, 0, 2]) := by
      unfold updateBest
      dsimp only
      rcases walk3_routes q s r hq.1 hr with h' | h' <;> subst h'
      · rw [if_neg instC_obj_facts.2.1]
      · rw [if_neg instC_obj_facts.2.2.1]
    rw [hub]
    obtain ⟨sols', s', heq, hrng⟩ := ih (k + 1)
      (sols ++ [(r, qiea_objective instC r)])
      ((qieaMaterialize instC gen k q s).2)
      (fun q' h' => hpop q' (List.mem_cons_of_mem _ h'))
    exact ⟨sols', s', heq, hrng.trans (qieaMaterialize_rng instC gen k q s)⟩

/-- The C1 run invariant: a `QOK3` population with the farthest-insertion
tour as the incumbent best. -/
def C1Inv (st : QieaSt) : Prop :=
  (∀ q ∈ st.population, QOK3 q) ∧
  st.best = some ([1, 0, 2], qiea_objective instC [1, 0, 2])

/-- Generation 0 of the C1 run establishes the invariant. -/
theorem qieaGenStep0_c1 (st : QieaSt) (s : RngS) (hs : s.rng = halfRng)
    (hpop : ∀ q ∈ st.population, QOK3 q) (hlen : 4 ≤ st.population.length)
    (hbest : st.best = none) :
    ∃ st' s', qieaGenStep instC 0 st s = (some st', s') ∧ C1Inv st' ∧
      s'.rng = halfRng := by
  obtain ⟨sols', s₁, hev, hrng₁⟩ := qieaEvalLoop_gen0_hit st.population 0 st.best
    [] s (Or.inl hbest) ⟨3, by omega, rfl⟩
  unfold qieaGenStep
  dsimp only
  rw [hev]
  dsimp only
  obtain ⟨hg, hr⟩ := qieaUpdateLoop_c1
    ((sols'.mergeSort fun a b => decide (a.2 ≤ b.2)).take 15) st.population 0 s₁
    (by rw [hrng₁, hs]) hpop
  exact ⟨_, _, rfl, ⟨hg, rfl⟩, hr⟩

/-- Every later generation of the C1 run preserves the invariant. -/
theorem qieaGenStepPos_c1 (gen : Nat) (hg : 1 ≤ gen) (st : QieaSt) (s : RngS)
    (hs : s.rng = halfRng) (hinv : C1Inv st) :
    ∃ st' s', qieaGenStep instC gen st s = (some st', s') ∧ C1Inv st' ∧
      s'.rng = halfRng := by
  obtain ⟨hpop, hbest⟩ := hinv
  obtain ⟨sols', s₁, hev, hrng₁⟩ := qieaEvalLoop_walk gen (by omega)
    st.population 0 [] s hpop
  unfold qieaGenStep
  dsimp only
  rw [hbest, hev]
  dsimp only
  obtain ⟨hg2, hr⟩ := qieaUpdateLoop_c1
    ((sols'.mergeSort fun a b => decide (a.2 ≤ b.2)).take 15) st.population 0 s₁
    (by rw [hrng₁, hs]) hpop
  exact ⟨_, _, rfl, ⟨hg2, rfl⟩, hr⟩

/-- The generation loop of the C1 run preserves the invariant from any
generation `≥ 1`. -/
theorem qieaGenLoop_c1 :
    ∀ (fuel gen : Nat) (st : QieaSt) (s : RngS), 1 ≤ gen → s.rng = halfRng →
      C1Inv st →
      ∃ st' s', qieaGenLoop instC fuel gen st s = (some st', s') ∧ C1Inv st' ∧
        s'.rng = halfRng := by
  intro fuel
  induction fuel with
  | zero => intro gen st s _ hs hinv; exact ⟨st, s, rfl, hinv, hs⟩
  | succ f ih =>
    intro gen st s hg hs hinv
    obtain ⟨st₁, s₁, hstep, hinv₁, hs₁⟩ := qieaGenStepPos_c1 gen hg st s hs hinv
    unfold qieaGenLoop
    dsimp only
    rw [hstep]
    dsimp only
    exact ih (gen + 1) st₁ s₁ (by omega) hs₁ hinv₁

/-- Under the constant-half stream an initial row is constantly `1/2`. -/
theorem qInitRow_half : ∀ (k : Nat) (s : RngS), s.rng = halfRng →
    (qInitRow k s).1 = List.replicate k (1/2) ∧
    ((qInitRow k s).2).rng = halfRng := by
  intro k
  induction k with
  | zero => intro s hs; exact ⟨rfl, hs⟩
  | succ n ih =>
    intro s hs
    obtain ⟨hu, hs1⟩ := drawUnit_half s hs
    obtain ⟨ih1, ih2⟩ := ih (drawUnit s).2 hs1
    have hstep : qInitRow (n + 1) s =
        ((drawUnit s).1 :: (qInitRow n (drawUnit s).2).1,
          (qInitRow n (drawUnit s).2).2) := rfl
    rw [hstep]
    exact ⟨by rw [List.replicate_succ]; dsimp only; rw [hu, ih1], ih2⟩

/-- Under the constant-half stream an initial matrix has constant rows. -/
theorem qInitMat_half : ∀ (k : Nat) (s : RngS), s.rng = halfRng →
    (∀ row ∈ (qInitMat 3 k s).1, row = List.replicate 3 (1/2)) ∧
    ((qInitMat 3 k s).2).rng = halfRng := by
  intro k
  induction k with
  | zero =>
    intro s hs
    refine ⟨?_, hs⟩
    intro row h
    rw [show (qInitMat 3 0 s).1 = [] from rfl] at h
    cases h
  | succ n ih =>
    intro s hs
    obtain ⟨hrow, hs1⟩ := qInitRow_half 3 s hs
    obtain ⟨ih1, ih2⟩ := ih (qInitRow 3 s).2 hs1
    have hstep : qInitMat 3 (n + 1) s =
        ((qInitRow 3 s).1 :: (qInitMat 3 n (qInitRow 3 s).2).1,
          (qInitMat 3 n (qInitRow 3 s).2).2) := rfl
    rw [hstep]
    refine ⟨?_, ih2⟩
    intro row h
    rcases List.mem_cons.mp h with h' | h'
    · rw [h', hrow]
    · exact ih1 row h'

/-- The initial matrix has as many rows as requested. -/
theorem qInitMat_count (n : Nat) :
    ∀ (k : Nat) (s : RngS), (qInitMat n k s).1.length = k := by
  intro k
  induction k with
  | zero => intro s; rfl
  | succ m ih =>
    intro s
    have hstep : qInitMat n (m + 1) s =
        ((qInitRow n s).1 :: (qInitMat n m (qInitRow n s).2).1,
          (qInitMat n m (qInitRow n s).2).2) := rfl
    rw [hstep]
    simp [ih]

/-- The initial population has as many members as requested. -/
theorem qInitPop_count (n : Nat) :
    ∀ (k : Nat) (s : RngS), (qInitPop n k s).1.length = k := by
  intro k
  induction k with
  | zero => intro s; rfl
  | succ m ih =>
    intro s
    have hstep : qInitPop n (m + 1) s =
        ((qInitMat n n s).1 :: (qInitPop n m (qInitMat n n s).2).1,
          (qInitPop n m (qInitMat n n s).2).2) := rfl
    rw [hstep]
    simp [ih]

/-- Under the constant-half stream the initial population is `QOK3`
throughout, and the stream stays the half stream. -/
theorem qInitPop_half : ∀ (k : Nat) (s : RngS), s.rng = halfRng →
    (∀ q ∈ (qInitPop 3 k s).1, QOK3 q) ∧
    ((qInitPop 3 k s).2).rng = halfRng := by
  intro k
  induction k with
  | zero =>
    intro s hs
    refine ⟨?_, hs⟩
    intro q h
    rw [show (qInitPop 3 0 s).1 = [] from rfl] at h
    cases h
  | succ n ih =>
    intro s hs
    obtain ⟨hmat, hs1⟩ := qInitMat_half 3 s hs
    obtain ⟨ih1, ih2⟩ := ih (qInitMat 3 3 s).2 hs1
    have hstep : qInitPop 3 (n + 1) s =
        ((qInitMat 3 3 s).1 :: (qInitPop 3 n (qInitMat 3 3 s).2).1,
          (qInitPop 3 n (qInitMat 3 3 s).2).2) := rfl
    rw [hstep]
    refine ⟨?_, ih2⟩
    intro q h
    rcases List.mem_cons.mp h with h' | h'
    · rw [h']
      constructor
      · exact qInitMat_count 3 3 s
      · intro row hrow
        rw [hmat row hrow]
        constructor
        · simp
        · intro x hx
          rw [List.eq_of_mem_replicate hx]
          norm_num
    · exact ih1 q h'

/-- The main path of `_optimize_qiea`, written out with explicit
projections: seeding, population initialization, the generation loop and
the final dispatch on its outcome. -/
theorem optimize_qiea_expand (env : Env) (inst : Inst) (s : RngS)
    (hn : ¬ inst.n ≤ 2) :
    optimize_qiea env inst s =
      (match (qieaGenLoop inst 250 0
          ⟨(qInitPop inst.n 60 (reseed env (randint 1 10000 s).1)).1, none, []⟩
          (qInitPop inst.n 60 (reseed env (randint 1 10000 s).1)).2).1 with
       | none => (.error "quantum walk failed: probabilities contain NaN",
           (qieaGenLoop inst 250 0
             ⟨(qInitPop inst.n 60 (reseed env (randint 1 10000 s).1)).1, none, []⟩
             (qInitPop inst.n 60 (reseed env (randint 1 10000 s).1)).2).2)
       | some stf =>
         match stf.best with
         | none => (.error "no route found",
             (qieaGenLoop inst 250 0
               ⟨(qInitPop inst.n 60 (reseed env (randint 1 10000 s).1)).1, none, []⟩
               (qInitPop inst.n 60 (reseed env (randint 1 10000 s).1)).2).2)
         | some ro =>
           (.ok { route_order := ro.1.map inst.idAt, polyline := ""
                  distance_km := calculate_route_distance inst ro.1
                  time_min := route_time inst ro.1
                  objective_value := ro.2
                  iterations_log := stf.log
                  seed := (randint 1 10000 s).1
                  algorithm_params := [("method", "qiea"),
                    ("population_size", "60"), ("generations", "250"),
                    ("mutation_rate", "0.15"), ("strategy", "exploration_focused"),
                    ("objective_weights", "0.5*distance + 0.3*time + 0.2*diversity")] },
             (qieaGenLoop inst 250 0
               ⟨(qInitPop inst.n 60 (reseed env (randint 1 10000 s).1)).1, none, []⟩
               (qInitPop inst.n 60 (reseed env (randint 1 10000 s).1)).2).2)) := by
  unfold optimize_qiea
  rw [if_neg hn]

/-- C1, counterexample: on `instC` under the constant-half oracle the
QIEA run succeeds and returns the generation-0 farthest-insertion tour
`[1, 0, 2]`: its `route_order` starts with the id `"B"` of location 1,
not the id `"A"` of location 0, refuting the claim that every returned
`route_order` starts with the id of location 0. -/
theorem c1_counterexample :
    (optimize_qiea envHalf instC rngZero).1.map (fun r => r.route_order.head?) =
      .ok (some "B") ∧
    instC.idAt 0 = "A" ∧ ("B" : String) ≠ "A" := by
  refine ⟨?_, rfl, by decide⟩
  have hrng0 : ((reseed envHalf (randint 1 10000 rngZero).1)).rng = halfRng := rfl
  obtain ⟨hqok, hrng1⟩ := qInitPop_half 60
    (reseed envHalf (randint 1 10000 rngZero).1) hrng0
  obtain ⟨st₁, s₁, hstep, hinv₁, hs₁⟩ := qieaGenStep0_c1
    ⟨(qInitPop instC.n 60 (reseed envHalf (randint 1 10000 rngZero).1)).1, none, []⟩
    (qInitPop instC.n 60 (reseed envHalf (randint 1 10000 rngZero).1)).2
    hrng1 hqok (by rw [qInitPop_count]; omega) rfl
  obtain ⟨stf, sf, hloop, hinvf, _⟩ := qieaGenLoop_c1 249 1 st₁ s₁ (by omega)
    hs₁ hinv₁
  obtain ⟨hfpop, hfbest⟩ := hinvf
  have hgl : qieaGenLoop instC 250 0
      ⟨(qInitPop instC.n 60 (reseed envHalf (randint 1 10000 rngZero).1)).1, none, []⟩
      (qInitPop instC.n 60 (reseed envHalf (randint 1 10000 rngZero).1)).2 =
      (some stf, sf) := by
    show qieaGenLoop instC (249 + 1) 0 _ _ = _
    unfold qieaGenLoop
    dsimp only
    rw [hstep]
    dsimp only
    exact hloop
  rw [optimize_qiea_expand envHalf instC rngZero (by decide)]
  rw [hgl]
  dsimp only
  rw [hfbest]
  rfl
